import Mathlib

/-!
Verification development for the MenaceAssetPacker schema pipeline.

The Python sources (src/tools/generate_schema.py, src/diff_schemas.py,
src/validate_extraction.py) are shallowly embedded here.  Dump text is
modelled as a list of lines (`List String`); the regular expressions of the
source, which in the dump format match within single lines (with `re.DOTALL`
runs binding a whole line block), are embedded as executable line/character
scanners.  Python dicts are modelled as association lists (JSON object keys
are unique after `json.load`, which the theorems record as `Nodup`
hypotheses where it matters); Python sets of names as lists considered up to
membership; Python float arithmetic on percentages as exact rational (`ℚ`)
arithmetic.  All definitions are executable.
-/

namespace MenaceAP

/-! ## String and list utilities -/

/-- Word characters, the regex class used throughout the dump grammar. -/
def isWordChar (c : Char) : Bool := c.isAlphanum || c = '_'

def isWordStr (s : String) : Bool := s.data.all isWordChar

/-- True when the first list is an initial segment of the second. -/
def charsStarts : List Char → List Char → Bool
  | [], _ => true
  | _ :: _, [] => false
  | p :: ps, c :: cs => p = c && charsStarts ps cs

def strStarts (pat s : String) : Bool := charsStarts pat.data s.data

def strEnds (pat s : String) : Bool := charsStarts pat.data.reverse s.data.reverse

/-- True when `pat` occurs as a contiguous run inside the second list. -/
def charsHasSub (pat : List Char) : List Char → Bool
  | [] => charsStarts pat []
  | c :: cs => charsStarts pat (c :: cs) || charsHasSub pat cs

def strHasSub (pat s : String) : Bool := charsHasSub pat.data s.data

/-- Strict lexicographic order on character lists (code-point order, the
order Python's `sorted` uses on these ASCII names). -/
def charsLt : List Char → List Char → Bool
  | [], [] => false
  | [], _ :: _ => true
  | _ :: _, [] => false
  | a :: as, b :: bs => a < b || (a = b && charsLt as bs)

def strLeB (a b : String) : Bool := !(charsLt b.data a.data)

/-- Stable insertion used by `sortStrings`. -/
def insertSorted (x : String) : List String → List String
  | [] => [x]
  | y :: ys => if strLeB x y then x :: y :: ys else y :: insertSorted x ys

/-- Model of Python's `sorted` on a collection of strings (a stable sort by
code-point order; only the ordering, not the algorithm, matters). -/
def sortStrings (l : List String) : List String := l.foldr insertSorted []

theorem insertSorted_perm (x : String) (l : List String) :
    List.Perm (insertSorted x l) (x :: l) := by
  induction l with
  | nil => simp [insertSorted]
  | cons y ys ih =>
    simp only [insertSorted]
    by_cases h : strLeB x y
    · simp [h]
    · simp only [h]
      refine List.Perm.trans (List.Perm.cons y ih) ?_
      exact List.Perm.swap x y ys

theorem sortStrings_perm (l : List String) : List.Perm (sortStrings l) l := by
  induction l with
  | nil => simp [sortStrings]
  | cons x xs ih =>
    simp only [sortStrings, List.foldr_cons]
    exact List.Perm.trans (insertSorted_perm x _) (List.Perm.cons x ih)

theorem sortStrings_mem (a : String) (l : List String) :
    a ∈ sortStrings l ↔ a ∈ l := (sortStrings_perm l).mem_iff

theorem sortStrings_nodup {l : List String} (h : l.Nodup) :
    (sortStrings l).Nodup := ((sortStrings_perm l).nodup_iff).mpr h

/-- Distinct elements, keeping first occurrences: the key list of a Python
dict built by repeated insertion. -/
def dedupFirst : List String → List String
  | [] => []
  | x :: xs => x :: (dedupFirst xs).filter (fun y => y ≠ x)

theorem dedupFirst_mem_iff (a : String) : ∀ (l : List String),
    a ∈ dedupFirst l ↔ a ∈ l := by
  intro l
  induction l with
  | nil => simp [dedupFirst]
  | cons x xs ih =>
    simp only [dedupFirst, List.mem_cons, List.mem_filter]
    by_cases hax : a = x
    · simp [hax]
    · simp [hax, ih]

theorem dedupFirst_nodup : ∀ (l : List String), (dedupFirst l).Nodup := by
  intro l
  induction l with
  | nil => simp [dedupFirst]
  | cons x xs ih =>
    simp only [dedupFirst]
    refine List.nodup_cons.mpr ⟨?_, List.Nodup.filter _ ih⟩
    intro hx
    have := (List.mem_filter.mp hx).2
    simp at this

/-- Last-binding lookup in an association list: the value a Python dict
holds after inserting every pair in order (later bindings overwrite). -/
def alookLast {α : Type} (l : List (String × α)) (k : String) : Option α :=
  (l.filter (fun p => p.1 = k)).getLast?.map (fun p => p.2)

/-- First-binding lookup; agrees with `alookLast` on `Nodup` keys. -/
def alook {α : Type} : List (String × α) → String → Option α
  | [], _ => none
  | (k', v) :: rest, k => if k' = k then some v else alook rest k

theorem alook_append_left {α : Type} (l₁ l₂ : List (String × α)) (k : String)
    (h : alook l₁ k = none) : alook (l₁ ++ l₂) k = alook l₂ k := by
  induction l₁ with
  | nil => simp
  | cons p rest ih =>
    obtain ⟨k', v⟩ := p
    simp only [alook] at h ⊢
    by_cases hk : k' = k
    · simp [hk] at h
    · simp only [hk, if_false] at h ⊢
      exact ih h

theorem alook_not_mem {α : Type} (l : List (String × α)) (k : String)
    (h : k ∉ l.map (fun p => p.1)) : alook l k = none := by
  induction l with
  | nil => simp [alook]
  | cons p rest ih =>
    obtain ⟨k', v⟩ := p
    simp only [List.map_cons, List.mem_cons, not_or] at h
    simp only [alook]
    rw [if_neg (fun e => h.1 e.symm)]
    exact ih h.2

/-! ## Data model shared by builder, differ and validator -/

/-- A raw parsed field as produced by `parse_class_from_dump` /
`parse_all_structs`: declared type, name, and the `"0x..."` offset string. -/
structure RawField where
  ftype : String
  name : String
  offset : String
deriving DecidableEq

/-- A struct entry of the schema: estimated byte size and parsed fields
(`parse_all_structs` in src/tools/generate_schema.py). -/
structure StructInfo where
  size_bytes : Nat
  fields : List RawField
deriving DecidableEq

/-- A field as the differ reads it from schema JSON (keys `name`, `type`,
`offset`). -/
structure DField where
  name : String
  ftype : String
  offset : String
deriving DecidableEq

/-- A template entry as the differ reads it (`fields` key). -/
structure DTemplate where
  fields : List DField
deriving DecidableEq

/-- An enum entry as the differ reads it (`values` key; a JSON object,
modelled as an association list with unique keys after `json.load`). -/
structure DEnum where
  values : List (String × Int)
deriving DecidableEq

/-- The parts of a schema JSON file the differ consumes. -/
structure DSchema where
  enums : List (String × DEnum)
  structs : List (String × StructInfo)
  templates : List (String × DTemplate)

/-! ## Schema differ (src/diff_schemas.py) -/

/-- Python `str` applied to an `int`-or-`None` value. -/
def showOptInt : Option Int → String
  | some n => toString n
  | none => "None"

def showOptNat : Option Nat → String
  | some n => toString n
  | none => "None"

/-- Member diff of one enum present in both schemas (body of the `common`
loop of `diff_enums`). -/
def diffOneEnum (name : String) (oldv newv : List (String × Int)) :
    List (String × String) :=
  let oldKeys := dedupFirst (oldv.map (fun p => p.1))
  let newKeys := dedupFirst (newv.map (fun p => p.1))
  let added_v := sortStrings (newKeys.filter (fun k => ¬ k ∈ oldKeys))
  let removed_v := sortStrings (oldKeys.filter (fun k => ¬ k ∈ newKeys))
  let changed_v := sortStrings ((oldKeys.filter (fun k => k ∈ newKeys)).filter
      (fun k => alookLast oldv k ≠ alookLast newv k))
  if added_v.isEmpty && removed_v.isEmpty && changed_v.isEmpty then []
  else
    ("CHG", name ++ ": +" ++ toString added_v.length ++ " -" ++
        toString removed_v.length ++ " ~" ++ toString changed_v.length ++ " values")
    :: (added_v.map (fun v => ("INFO", "  + " ++ v ++ " = " ++ showOptInt (alookLast newv v)))
    ++ removed_v.map (fun v => ("INFO", "  - " ++ v ++ " = " ++ showOptInt (alookLast oldv v)))
    ++ changed_v.map (fun v => ("CRIT", "  ~ " ++ v ++ ": " ++
        showOptInt (alookLast oldv v) ++ " -> " ++ showOptInt (alookLast newv v))))

/-- `"values"` mapping of the named enum (`old_enums[name]["values"]`). -/
def enumValues (l : List (String × DEnum)) (n : String) : List (String × Int) :=
  match alookLast l n with
  | some e => e.values
  | none => []

/-- Number of entries of an enum's `values` dict. -/
def enumValuesLen (l : List (String × DEnum)) (n : String) : Nat :=
  (dedupFirst ((enumValues l n).map (fun p => p.1))).length

/-- `diff_enums` of src/diff_schemas.py. -/
def diff_enums (old new : List (String × DEnum)) : List (String × String) :=
  let oldNames := dedupFirst (old.map (fun p => p.1))
  let newNames := dedupFirst (new.map (fun p => p.1))
  let added := sortStrings (newNames.filter (fun n => ¬ n ∈ oldNames))
  let removed := sortStrings (oldNames.filter (fun n => ¬ n ∈ newNames))
  let common := sortStrings (oldNames.filter (fun n => n ∈ newNames))
  let addRecs := if added.isEmpty then [] else
    ("ADD", toString added.length ++ " new enums")
    :: added.map (fun n => ("INFO", "  + " ++ n ++ " (" ++
        toString (enumValuesLen new n) ++ " values)"))
  let delRecs := if removed.isEmpty then [] else
    ("DEL", toString removed.length ++ " removed enums")
    :: removed.map (fun n => ("INFO", "  - " ++ n))
  addRecs ++ delRecs ++
    common.flatMap (fun n => diffOneEnum n (enumValues old n) (enumValues new n))

def dfltDField : DField := ⟨"", "", ""⟩

/-- Key list of the dict comprehension `{f["name"]: f for f in fields}`. -/
def fieldKeys (fs : List DField) : List String := dedupFirst (fs.map (fun f => f.name))

/-- Value held by that dict for a name (last binding wins). -/
def fieldGet (fs : List DField) (n : String) : DField :=
  match (fs.filter (fun f => f.name = n)).getLast? with
  | some f => f
  | none => dfltDField

/-- Member diff of one template present in both schemas (body of the
`common` loop of `diff_templates`), plus its offset-change count. -/
def diffOneTemplate (name : String) (oldT newT : DTemplate) :
    List (String × String) × Nat :=
  let oldF := oldT.fields
  let newF := newT.fields
  let oldKeys := fieldKeys oldF
  let newKeys := fieldKeys newF
  let added_f := sortStrings (newKeys.filter (fun k => ¬ k ∈ oldKeys))
  let removed_f := sortStrings (oldKeys.filter (fun k => ¬ k ∈ newKeys))
  let commonF := sortStrings (oldKeys.filter (fun k => k ∈ newKeys))
  let offset_changed := commonF.filterMap (fun k =>
    if (fieldGet oldF k).offset ≠ (fieldGet newF k).offset
    then some (k, (fieldGet oldF k).offset, (fieldGet newF k).offset) else none)
  let type_changed := commonF.filterMap (fun k =>
    if (fieldGet oldF k).ftype ≠ (fieldGet newF k).ftype
    then some (k, (fieldGet oldF k).ftype, (fieldGet newF k).ftype) else none)
  let recs :=
    if added_f.isEmpty && removed_f.isEmpty && offset_changed.isEmpty &&
        type_changed.isEmpty then ([] : List (String × String))
    else
      ("CHG", name ++ ":")
      :: (added_f.map (fun f => ("INFO", "  + " ++ f ++ ": " ++
            (fieldGet newF f).ftype ++ " @ " ++ (fieldGet newF f).offset))
      ++ removed_f.map (fun f => ("INFO", "  - " ++ f ++ ": " ++
            (fieldGet oldF f).ftype ++ " @ " ++ (fieldGet oldF f).offset))
      ++ offset_changed.map (fun t => ("CRIT", "  OFFSET " ++ t.1 ++ ": " ++
            t.2.1 ++ " -> " ++ t.2.2))
      ++ type_changed.map (fun t => ("WARN", "  TYPE " ++ t.1 ++ ": " ++
            t.2.1 ++ " -> " ++ t.2.2)))
  (recs, offset_changed.length)

def tmplGet (l : List (String × DTemplate)) (n : String) : DTemplate :=
  match alookLast l n with
  | some t => t
  | none => ⟨[]⟩

/-- The per-field critical record `diff_templates` emits for one changed
offset. -/
def offsetCritRec (fname oldOff newOff : String) : String × String :=
  ("CRIT", "  OFFSET " ++ fname ++ ": " ++ oldOff ++ " -> " ++ newOff)

/-- `diff_templates` of src/diff_schemas.py. -/
def diff_templates (old new : List (String × DTemplate)) : List (String × String) :=
  let oldNames := dedupFirst (old.map (fun p => p.1))
  let newNames := dedupFirst (new.map (fun p => p.1))
  let added := sortStrings (newNames.filter (fun n => ¬ n ∈ oldNames))
  let removed := sortStrings (oldNames.filter (fun n => ¬ n ∈ newNames))
  let common := sortStrings (oldNames.filter (fun n => n ∈ newNames))
  let addRecs := if added.isEmpty then [] else
    ("ADD", toString added.length ++ " new templates")
    :: added.map (fun n => ("INFO", "  + " ++ n ++ " (" ++
        toString (tmplGet new n).fields.length ++ " fields)"))
  let delRecs := if removed.isEmpty then [] else
    ("DEL", toString removed.length ++ " removed templates")
    :: removed.map (fun n => ("INFO", "  - " ++ n))
  let per := common.map (fun n => diffOneTemplate n (tmplGet old n) (tmplGet new n))
  let offTotal := (per.map (fun p => p.2)).sum
  let body := addRecs ++ delRecs ++ per.flatMap (fun p => p.1)
  if offTotal ≠ 0 then
    ("CRIT", "*** " ++ toString offTotal ++
      " OFFSET CHANGES - extraction code must be regenerated ***") :: body
  else body

/-- `diff_structs` of src/diff_schemas.py.  `size_bytes` is always present
in builder output, so `.get("size_bytes")` is the value itself. -/
def diff_structs (old new : List (String × StructInfo)) : List (String × String) :=
  let oldNames := dedupFirst (old.map (fun p => p.1))
  let newNames := dedupFirst (new.map (fun p => p.1))
  let added := sortStrings (newNames.filter (fun n => ¬ n ∈ oldNames))
  let removed := sortStrings (oldNames.filter (fun n => ¬ n ∈ newNames))
  let addRecs := if added.isEmpty then [] else
    ("ADD", toString added.length ++ " new structs")
    :: added.map (fun n => ("INFO", "  + " ++ n))
  let delRecs := if removed.isEmpty then [] else
    ("DEL", toString removed.length ++ " removed structs")
    :: removed.map (fun n => ("INFO", "  - " ++ n))
  addRecs ++ delRecs ++
    (sortStrings (oldNames.filter (fun n => n ∈ newNames))).filterMap (fun n =>
      let os := (alookLast old n).map (fun s => s.size_bytes)
      let ns := (alookLast new n).map (fun s => s.size_bytes)
      if os ≠ ns then
        some ("CRIT", n ++ ": size changed " ++ showOptNat os ++ " -> " ++ showOptNat ns)
      else none)

def anyCrit (l : List (String × String)) : Bool := l.any (fun r => r.1 = "CRIT")

/-- `has_critical` as accumulated by `main` of src/diff_schemas.py. -/
def hasCriticalChanges (old new : DSchema) : Bool :=
  anyCrit (diff_enums old.enums new.enums) ||
  anyCrit (diff_structs old.structs new.structs) ||
  anyCrit (diff_templates old.templates new.templates)

/-- Exit code computed at the end of `main` of src/diff_schemas.py once both
schema files load: 2 when any critical record exists, 0 otherwise. -/
def diffExitCode (old new : DSchema) : Nat :=
  if hasCriticalChanges old new then 2 else 0

/-! ## JSON values and the extraction validator (src/validate_extraction.py) -/

/-- In-memory JSON values as `json.load` yields them.  Numbers keep Python's
int/float distinction; floats are modelled as exact rationals. -/
inductive JVal where
  | jnull
  | jbool (b : Bool)
  | jint (n : Int)
  | jnum (q : ℚ)
  | jstr (s : String)
  | jarr (xs : List JVal)
  | jobj (kvs : List (String × JVal))

/-- A schema field as the validator reads it. -/
structure VField where
  name : String
  ftype : String
  category : String

/-- A schema template entry as the validator reads it. -/
structure VTemplate where
  is_abstract : Bool
  fields : List VField

def jget (kvs : List (String × JVal)) (k : String) : Option JVal := alookLast kvs k

/-- Python truthiness of a JSON value. -/
def jTruthy : JVal → Bool
  | .jnull => false
  | .jbool b => b
  | .jint n => n ≠ 0
  | .jnum q => q ≠ 0
  | .jstr s => s ≠ ""
  | .jarr xs => !xs.isEmpty
  | .jobj kvs => !kvs.isEmpty

/-- `check_template_coverage` of src/validate_extraction.py.  The data
directory is modelled by the list of template names whose
`<name>.json` exists. -/
def check_template_coverage (templates : List (String × VTemplate))
    (files : List String) : List (String × String) × List String :=
  let expected := (templates.filter (fun p => !p.2.is_abstract)).map (fun p => p.1)
  let abstractCount := (templates.filter (fun p => p.2.is_abstract)).length
  let found := expected.filter (fun t => t ∈ files)
  let missing := expected.filter (fun t => ¬ t ∈ found)
  let pct : ℚ := if expected.isEmpty then 100
    else (found.length : ℚ) / (expected.length : ℚ) * 100
  let level := if missing.isEmpty then "PASS"
    else if 70 ≤ pct then "WARN" else "FAIL"
  let msg := toString found.length ++ "/" ++ toString expected.length ++
    " types have output (" ++ toString abstractCount ++ " abstract, expected no output)"
  ((level, msg) :: (sortStrings missing).map (fun m => ("INFO", "  Missing: " ++ m)),
   found)

/-- Stand-in for Python's `"{:.0f}".format` on the percentage (the rendered
digits are irrelevant to every property below). -/
def pctStr (q : ℚ) : String := toString (round q)

/-- `inst.get("name") and not inst["name"].startswith("unknown_")` for a
member of an instance list (Python would raise on a truthy non-string name;
such a value is counted as named here and never occurs in the data). -/
def isNamedInst : JVal → Bool
  | .jobj kvs =>
    (match jget kvs "name" with
     | some v => jTruthy v &&
        (match v with
         | .jstr s => !(strStarts "unknown_" s)
         | _ => true)
     | none => false)
  | _ => false

/-- Records `check_instance_names` appends for one template's file. -/
def instNameRecs (readF : String → Option JVal) (t : String) :
    List (String × String) :=
  match readF t with
  | none => [("FAIL", t ++ ": Could not read JSON")]
  | some (.jarr insts) =>
    if insts.length = 0 then [("WARN", t ++ ": Empty file")]
    else
      let total := insts.length
      let named := (insts.filter isNamedInst).length
      let pct : ℚ := (named : ℚ) / (total : ℚ) * 100
      let level := if pct = 100 then "PASS" else if 50 ≤ pct then "WARN" else "FAIL"
      [(level, t ++ ": " ++ toString named ++ "/" ++ toString total ++
        " named (" ++ pctStr pct ++ "%)")]
  | some _ => [("WARN", t ++ ": Not a list")]

/-- `check_instance_names` of src/validate_extraction.py.  `readF` models
opening and JSON-parsing `<t>.json` (`none` = unreadable or malformed). -/
def check_instance_names (readF : String → Option JVal) (found : List String) :
    List (String × String) :=
  (sortStrings found).flatMap (instNameRecs readF)

/-- `isinstance(v, int)` (Python booleans are ints). -/
def pyIsInt : JVal → Bool
  | .jint _ => true
  | .jbool _ => true
  | _ => false

def pyIsFloat : JVal → Bool
  | .jnum _ => true
  | _ => false

def pyIsBool : JVal → Bool
  | .jbool _ => true
  | _ => false

def pyIntVal : JVal → Int
  | .jint n => n
  | .jbool b => if b then 1 else 0
  | _ => 0

def pyNumVal : JVal → ℚ
  | .jint n => (n : ℚ)
  | .jbool b => if b then 1 else 0
  | .jnum q => q
  | _ => 0

/-- `type(v).__name__`. -/
def pyTypeName : JVal → String
  | .jnull => "NoneType"
  | .jbool _ => "bool"
  | .jint _ => "int"
  | .jnum _ => "float"
  | .jstr _ => "str"
  | .jarr _ => "list"
  | .jobj _ => "dict"

/-- Stand-in for Python `str`/`repr` of a JSON value inside report messages
(only its presence, never its digits, matters to the properties below). -/
def jvalStr : JVal → String
  | .jstr s => s
  | .jint n => toString n
  | .jbool b => if b then "True" else "False"
  | .jnull => "None"
  | .jnum q => toString q
  | .jarr _ => "<list>"
  | .jobj _ => "<dict>"

/-- Stand-in for Python's `"{:.3e}".format`. -/
def sciStr (q : ℚ) : String := toString q

/-- `type_checks.get(ftype)` applied to a value: `none` when no checker is
registered for the declared type. -/
def typeCheckOpt (ftype : String) (v : JVal) : Option Bool :=
  if ftype = "int" || ftype = "Int32" || ftype = "short" || ftype = "Int16" ||
      ftype = "long" || ftype = "Int64" then some (pyIsInt v)
  else if ftype = "byte" || ftype = "Byte" then
    some (pyIsInt v && (decide (0 ≤ pyIntVal v) && decide (pyIntVal v ≤ 255)))
  else if ftype = "float" || ftype = "Single" || ftype = "double" ||
      ftype = "Double" then some (pyIsInt v || pyIsFloat v)
  else if ftype = "bool" || ftype = "Boolean" then some (pyIsBool v)
  else none

def dfltVField : VField := ⟨"", "", ""⟩

def vfieldGet (fs : List VField) (n : String) : VField :=
  match (fs.filter (fun f => f.name = n)).getLast? with
  | some f => f
  | none => dfltVField

/-- Entries of the dict `{f["name"]: f for f in tinfo["fields"]}` in
iteration order. -/
def fieldMapEntries (fs : List VField) : List (String × VField) :=
  (dedupFirst (fs.map (fun f => f.name))).map (fun n => (n, vfieldGet fs n))

/-- Type errors `check_type_validation` collects for one instance. -/
def instTypeErrors (tname : String) (fields : List VField) (inst : JVal) :
    List String :=
  match inst with
  | .jobj kvs =>
    let instName := match jget kvs "name" with
      | some v => jvalStr v
      | none => "?"
    (fieldMapEntries fields).flatMap (fun p =>
      match jget kvs p.1 with
      | none => []
      | some val =>
        let ftype := p.2.ftype
        (match typeCheckOpt ftype val with
         | some false => [tname ++ "." ++ p.1 ++ "[" ++ instName ++ "]: expected " ++
            ftype ++ ", got " ++ pyTypeName val ++ "=" ++ jvalStr val]
         | _ => []) ++
        (if (ftype = "float" || ftype = "Single") && (pyIsInt val || pyIsFloat val) &&
            (decide ((10 ^ 10 : ℚ) < |pyNumVal val|) && decide (pyNumVal val ≠ 0))
         then [tname ++ "." ++ p.1 ++ "[" ++ instName ++ "]: expected float, got " ++
            sciStr (pyNumVal val) ++ " (garbage - wrong offset?)"]
         else []))
  | _ => []

/-- Records `check_type_validation` appends for one template's file. -/
def typeValRecs (tmpls : List (String × VTemplate))
    (readF : String → Option JVal) (t : String) : List (String × String) :=
  match alookLast tmpls t with
  | none => []
  | some ti =>
    match readF t with
    | none => []
    | some (.jarr insts) =>
      let errors := (insts.take 50).flatMap (instTypeErrors t ti.fields)
      if errors.isEmpty then
        if (insts.take 5).any (fun i =>
            match i with
            | .jobj kvs => 1 < (dedupFirst (kvs.map (fun p => p.1))).length
            | _ => false)
        then [("PASS", t ++ ": all values match expected types")]
        else []
      else
        ("FAIL", t ++ ": " ++ toString errors.length ++ " type errors")
        :: ((errors.take 5).map (fun e => ("INFO", "  " ++ e))
        ++ (if 5 < errors.length then
              [("INFO", "  ... and " ++ toString (errors.length - 5) ++ " more")]
            else []))
    | some _ => []

/-- `check_type_validation` of src/validate_extraction.py. -/
def check_type_validation (tmpls : List (String × VTemplate))
    (readF : String → Option JVal) (found : List String) :
    List (String × String) :=
  (sortStrings found).flatMap (typeValRecs tmpls readF)

/-! ## Dump parsing (src/tools/generate_schema.py)

The dump text is a list of lines.  The `re.DOTALL` body regexes
`...\n\x7b\n(.*?)\n\x7d` bind, after the header line, everything between
the first line equal to `"\x7b"` and the first following line that starts
with `"\x7d"`; the remaining regexes match within single lines. -/

/-- Name candidates `X` such that `X` followed by a whitespace (`\s`, which
at end of line is the terminating newline of the raw text) starts here. -/
def namesFrom : List Char → List (List Char)
  | [] => [[]]
  | c :: cs => (if c.isWhitespace then [[]] else []) ++ (namesFrom cs).map (fun n => c :: n)

/-- All `X` for which the regex `kw ++ X ++ \s` matches somewhere in the
line. -/
def headerNames (kw : List Char) : List Char → List (List Char)
  | [] => []
  | c :: cs =>
    (if charsStarts kw (c :: cs) then namesFrom (List.drop kw.length (c :: cs)) else [])
    ++ headerNames kw cs

/-- The header regex `kw ++ name ++ \s` matches this line. -/
def isHeaderLine (kw name : String) (line : String) : Bool :=
  decide (name.data ∈ headerNames kw.data line.data)

/-- Lines after the first one satisfying `p` (`none` when no line does). -/
def dropAfterFirst (p : String → Bool) : List String → Option (List String)
  | [] => none
  | l :: ls => if p l then some ls else dropAfterFirst p ls

/-- Lines before the first one starting with a closing brace: the lazy group
of `(.*?)\n\x7d` in the body regexes. -/
def takeUntilCloseNaive : List String → Option (List String)
  | [] => none
  | l :: ls =>
    if strStarts "\x7d" l then some []
    else (takeUntilCloseNaive ls).map (fun b => l :: b)

/-- Body of the first `kw`-headed declaration of `name`: the extraction the
source performs with `re.search(kw ++ name ++ "\\s.*?\\n\x7b\\n(.*?)\\n\x7d", ...)`. -/
def extractBodyN (kw name : String) (lines : List String) : Option (List String) :=
  (dropAfterFirst (isHeaderLine kw name) lines).bind
    (fun r => (dropAfterFirst (fun l => l = "\x7b") r).bind takeUntilCloseNaive)

/-- Modelled from the spec: one line of the explicit brace-depth scanner
that §4.1/§9 prescribe; `none` means the matching close was reached in this
line. -/
def scanLine : Nat → List Char → Option Nat
  | d, [] => some d
  | d, c :: cs =>
    if c = '\x7b' then scanLine (d + 1) cs
    else if c = '\x7d' then (if d ≤ 1 then none else scanLine (d - 1) cs)
    else scanLine d cs

/-- Modelled from the spec: lines before the true (depth-counted) matching
closing brace. -/
def takeUntilCloseDepth : Nat → List String → Option (List String)
  | _, [] => none
  | d, l :: ls =>
    match scanLine d l.data with
    | none => some []
    | some d2 => (takeUntilCloseDepth d2 ls).map (fun b => l :: b)

/-- Modelled from the spec: body extraction as §4.1 prescribes it, with the
depth-aware close in place of the first-closing-brace match. -/
def extractBodyD (kw name : String) (lines : List String) : Option (List String) :=
  (dropAfterFirst (isHeaderLine kw name) lines).bind
    (fun r => (dropAfterFirst (fun l => l = "\x7b") r).bind (takeUntilCloseDepth 1))

/-- Character class `[\w<>\[\]\.]` of the field regex. -/
def isTypeChar (c : Char) : Bool :=
  isWordChar c || c = '<' || c = '>' || c = '[' || c = ']' || c = '.'

def isHexChar (c : Char) : Bool := "0123456789abcdefABCDEF".data.contains c

/-- Remainder of the field regex after its `public`/`private` keyword:
`\s+([\w<>\[\]\.]+)\s+(\w+);\s+//\s+0x([0-9A-Fa-f]+)`, returning
(declared type, name, hex offset digits). -/
def matchFieldAfterKw (cs : List Char) : Option (String × String × String) :=
  let ws1 := cs.takeWhile (fun c => c.isWhitespace)
  if ws1.isEmpty then none else
  let r1 := cs.dropWhile (fun c => c.isWhitespace)
  let ty := r1.takeWhile isTypeChar
  if ty.isEmpty then none else
  let r2 := r1.dropWhile isTypeChar
  if (r2.takeWhile (fun c => c.isWhitespace)).isEmpty then none else
  let r3 := r2.dropWhile (fun c => c.isWhitespace)
  let nm := r3.takeWhile isWordChar
  if nm.isEmpty then none else
  match r3.dropWhile isWordChar with
  | ';' :: r4 =>
    if (r4.takeWhile (fun c => c.isWhitespace)).isEmpty then none else
    (match r4.dropWhile (fun c => c.isWhitespace) with
     | '/' :: '/' :: r5 =>
       if (r5.takeWhile (fun c => c.isWhitespace)).isEmpty then none else
       (match r5.dropWhile (fun c => c.isWhitespace) with
        | '0' :: 'x' :: r6 =>
          let hx := r6.takeWhile isHexChar
          if hx.isEmpty then none else some (String.mk ty, String.mk nm, String.mk hx)
        | _ => none)
     | _ => none)
  | _ => none

/-- First match of the field regex in a line (the keyword may start at any
position, as `re.finditer` is unanchored). -/
def findFieldMatch : List Char → Option (String × String × String)
  | [] => none
  | c :: cs =>
    match (if charsStarts "public".data (c :: cs) then
             matchFieldAfterKw (List.drop 6 (c :: cs))
           else if charsStarts "private".data (c :: cs) then
             matchFieldAfterKw (List.drop 7 (c :: cs))
           else none) with
    | some r => some r
    | none => findFieldMatch cs

/-- Skip set of `parse_class_from_dump`: IL2CPP-internal names, compiler
backing fields, and any field whose offset comment is literally `0`. -/
def classFieldKeep (nm offDigits : String) : Bool :=
  !(strStarts "NativeFieldInfoPtr" nm) && !(strStarts "Il2Cpp" nm) &&
  !(strHasSub "k__BackingField" nm) && !(offDigits = "0")

def parseClassFields (body : List String) : List RawField :=
  body.filterMap (fun l =>
    match findFieldMatch l.data with
    | some (ty, nm, off) =>
      if classFieldKeep nm off then some ⟨ty, nm, "0x" ++ off⟩ else none
    | none => none)

/-- The `.*?:\s+(\w+)` tail of the base-class regex: first colon in the rest
of the line that is followed by whitespace and a word (with the regex
engine's backtracking to later colons). -/
def baseFromAfter : List Char → Option String
  | [] => none
  | c :: rest =>
    if c = ':' then
      (if (rest.takeWhile (fun x => x.isWhitespace)).isEmpty then baseFromAfter rest
       else
         let nm := (rest.dropWhile (fun x => x.isWhitespace)).takeWhile isWordChar
         if nm.isEmpty then baseFromAfter rest else some (String.mk nm))
    else baseFromAfter rest

/-- First match of `kwX ++ .*?:\s+(\w+)` within a line. -/
def baseInLine (kwX : List Char) : List Char → Option String
  | [] => none
  | c :: cs =>
    match (if charsStarts kwX (c :: cs) then
             baseFromAfter (List.drop kwX.length (c :: cs))
           else none) with
    | some b => some b
    | none => baseInLine kwX cs

def findFirstSome {α : Type} (f : String → Option α) : List String → Option α
  | [] => none
  | l :: ls =>
    match f l with
    | some r => some r
    | none => findFirstSome f ls

/-- Base-class extraction of `parse_class_from_dump`: the two `base_patterns`
searched over the whole content, plain pattern first. -/
def classBase (content : List String) (name : String) : Option String :=
  match findFirstSome (fun l => baseInLine ("public class " ++ name).data l.data) content with
  | some b => some b
  | none =>
    findFirstSome (fun l => baseInLine ("public abstract class " ++ name).data l.data) content

/-- `re.search(kw ++ name ++ "\\s", content)` as a Boolean. -/
def hasKwName (kw name : String) (content : List String) : Bool :=
  content.any (fun l => isHeaderLine kw name l)

structure ClassInfo where
  name : String
  base : Option String
  is_abstract : Bool
  fields : List RawField
deriving DecidableEq

/-- `parse_class_from_dump` of src/tools/generate_schema.py (its
`allow_abstract` parameter is unused in the source: both header patterns are
always tried, plain first). -/
def parse_class_from_dump (content : List String) (name : String) : Option ClassInfo :=
  match (match extractBodyN "public class " name content with
         | some b => some b
         | none => extractBodyN "public abstract class " name content) with
  | none => none
  | some body =>
    some { name := name
           base := classBase content name
           is_abstract := hasKwName "public abstract class " name content
           fields := parseClassFields body }

/-- All names that can head a class declaration somewhere in the content;
`parse_class_from_dump` succeeds only on these (used as the termination
measure of the base-chain walk). -/
def headerCands (content : List String) : List String :=
  content.flatMap (fun l =>
    ((headerNames "public class ".data l.data) ++
     (headerNames "public abstract class ".data l.data)).map String.mk)

theorem length_filter_not_mem_le (l v v' : List String)
    (hsub : ∀ x, x ∈ v → x ∈ v') :
    (l.filter (fun x => ¬ x ∈ v')).length ≤ (l.filter (fun x => ¬ x ∈ v)).length := by
  induction l with
  | nil => simp
  | cons x xs ih =>
    by_cases hx' : x ∈ v'
    · by_cases hxv : x ∈ v
      · simp only [List.filter_cons, hx', hxv]
        simpa using ih
      · simp only [List.filter_cons]
        rw [if_neg (by simpa using hx'), if_pos (by simpa using hxv)]
        exact Nat.le_succ_of_le ih
    · have hxv : x ∉ v := fun h => hx' (hsub x h)
      simp only [List.filter_cons]
      rw [if_pos (by simpa using hx'), if_pos (by simpa using hxv)]
      simpa using ih

theorem length_filter_lt_of_mem (l v v' : List String) (a : String)
    (hsub : ∀ x, x ∈ v → x ∈ v') (hav' : a ∈ v') (hal : a ∈ l) (hav : a ∉ v) :
    (l.filter (fun x => ¬ x ∈ v')).length < (l.filter (fun x => ¬ x ∈ v)).length := by
  induction l with
  | nil => cases hal
  | cons x xs ih =>
    by_cases hxa : x = a
    · subst hxa
      simp only [List.filter_cons]
      rw [if_neg (by simpa using hav'), if_pos (by simpa using hav)]
      exact Nat.lt_succ_of_le (length_filter_not_mem_le xs v v' hsub)
    · have hal2 : a ∈ xs := by
        rcases List.mem_cons.mp hal with h | h
        · exact absurd h.symm hxa
        · exact h
      by_cases hx' : x ∈ v'
      · by_cases hxv : x ∈ v
        · simp only [List.filter_cons]
          rw [if_neg (by simpa using hx'), if_neg (by simpa using hxv)]
          exact ih hal2
        · simp only [List.filter_cons]
          rw [if_neg (by simpa using hx'), if_pos (by simpa using hxv)]
          exact Nat.lt_succ_of_lt (ih hal2)
      · have hxv : x ∉ v := fun h => hx' (hsub x h)
        simp only [List.filter_cons]
        rw [if_pos (by simpa using hx'), if_pos (by simpa using hxv)]
        simpa using Nat.succ_lt_succ (ih hal2)

theorem dropAfterFirst_exists {p : String → Bool} :
    ∀ {ls : List String} {r : List String}, dropAfterFirst p ls = some r →
    ∃ l ∈ ls, p l = true := by
  intro ls
  induction ls with
  | nil => intro r h; simp [dropAfterFirst] at h
  | cons l ls ih =>
    intro r h
    simp only [dropAfterFirst] at h
    by_cases hp : p l
    · exact ⟨l, List.mem_cons_self l ls, hp⟩
    · simp only [hp, Bool.false_eq_true, if_false] at h
      obtain ⟨l', hl', hpl'⟩ := ih h
      exact ⟨l', List.mem_cons_of_mem _ hl', hpl'⟩

theorem mem_headerCands_of_parse {content : List String} {name : String}
    {info : ClassInfo} (h : parse_class_from_dump content name = some info) :
    name ∈ headerCands content := by
  have hbody : (match extractBodyN "public class " name content with
      | some b => some b
      | none => extractBodyN "public abstract class " name content).isSome := by
    unfold parse_class_from_dump at h
    cases hm : (match extractBodyN "public class " name content with
      | some b => some b
      | none => extractBodyN "public abstract class " name content) with
    | none => rw [hm] at h; simp at h
    | some b => simp [hm]
  have : (∃ r, dropAfterFirst (isHeaderLine "public class " name) content = some r) ∨
      (∃ r, dropAfterFirst (isHeaderLine "public abstract class " name) content = some r) := by
    cases h1 : extractBodyN "public class " name content with
    | some b =>
      left
      unfold extractBodyN at h1
      cases hd : dropAfterFirst (isHeaderLine "public class " name) content with
      | none => rw [hd] at h1; simp at h1
      | some r => exact ⟨r, rfl⟩
    | none =>
      right
      rw [h1] at hbody
      simp only [Option.isSome] at hbody
      cases h2 : extractBodyN "public abstract class " name content with
      | none => rw [h2] at hbody; simp at hbody
      | some b =>
        unfold extractBodyN at h2
        cases hd : dropAfterFirst (isHeaderLine "public abstract class " name) content with
        | none => rw [hd] at h2; simp at h2
        | some r => exact ⟨r, rfl⟩
  have hmk : String.mk name.data = name := rfl
  rcases this with ⟨r, hr⟩ | ⟨r, hr⟩ <;>
  · obtain ⟨l, hl, hpl⟩ := dropAfterFirst_exists hr
    simp only [isHeaderLine, decide_eq_true_eq] at hpl
    refine List.mem_flatMap.mpr ⟨l, hl, ?_⟩
    rw [← hmk]
    refine List.mem_map.mpr ⟨name.data, ?_, rfl⟩
    simp only [List.mem_append]
    first
    | exact Or.inl hpl
    | exact Or.inr hpl

/-- `stop_bases` of `collect_all_fields`. -/
def stopBases : List String := ["ScriptableObject", "MonoBehaviour", "Object",
  "SerializedScriptableObject"]

/-- `collect_all_fields` of src/tools/generate_schema.py.  The mutated
`visited` set threads linearly down the single base-class recursion, so it
is passed explicitly; termination holds because every recursion step adds a
parseable name (a member of `headerCands content`) to `visited`. -/
def collect_all_fields (content : List String) (name : String)
    (visited : List String) : List RawField :=
  if hv : name ∈ visited then []
  else
    match hp : parse_class_from_dump content name with
    | none => []
    | some info =>
      match info.base with
      | some b =>
        if b ∈ stopBases then info.fields
        else collect_all_fields content b (name :: visited) ++ info.fields
      | none => info.fields
termination_by ((headerCands content).filter (fun x => ¬ x ∈ visited)).length
decreasing_by
  exact length_filter_lt_of_mem _ _ _ name (fun x hx => List.mem_cons_of_mem _ hx)
    (List.mem_cons_self _ _) (mem_headerCands_of_parse hp) hv

/-- The names on which the walk of `collect_all_fields` invokes the parser,
in visit order (instrumentation sharing the recursion structure). -/
def collectVisits (content : List String) (name : String)
    (visited : List String) : List String :=
  if hv : name ∈ visited then []
  else
    match hp : parse_class_from_dump content name with
    | none => [name]
    | some info =>
      match info.base with
      | some b =>
        if b ∈ stopBases then [name]
        else name :: collectVisits content b (name :: visited)
      | none => [name]
termination_by ((headerCands content).filter (fun x => ¬ x ∈ visited)).length
decreasing_by
  exact length_filter_lt_of_mem _ _ _ name (fun x hx => List.mem_cons_of_mem _ hx)
    (List.mem_cons_self _ _) (mem_headerCands_of_parse hp) hv

def hGet (h : List (String × String)) (k : String) : Option String := alookLast h k

theorem hGet_mem_snd {h : List (String × String)} {k p : String}
    (hp : hGet h k = some p) : p ∈ h.map (fun q => q.2) := by
  unfold hGet alookLast at hp
  cases hl : (h.filter (fun q => q.1 = k)).getLast? with
  | none => rw [hl] at hp; simp at hp
  | some pr =>
    rw [hl] at hp
    simp only [Option.map_some', Option.some.injEq] at hp
    have hmem : pr ∈ h.filter (fun q => q.1 = k) := by
      obtain ⟨hne, heq⟩ :=
        List.mem_getLast?_eq_getLast (l := h.filter (fun q => q.1 = k)) (x := pr)
          (show pr ∈ _ from hl)
      rw [heq]
      exact List.getLast_mem hne
    have : pr ∈ h := List.mem_of_mem_filter hmem
    exact hp ▸ List.mem_map.mpr ⟨pr, this, rfl⟩

/-- Loop of `get_inheritance_chain`: while the current name is a key with a
truthy parent, append the parent unless already seen, then move to it. -/
def chainLoop (h : List (String × String)) (chain : List String)
    (current : String) : List String :=
  match hh : hGet h current with
  | none => chain
  | some p =>
    if p = "" then chain
    else if hp : p ∈ chain then chain
    else chainLoop h (chain ++ [p]) p
termination_by ((h.map (fun q => q.2)).filter (fun x => ¬ x ∈ chain)).length
decreasing_by
  exact length_filter_lt_of_mem _ _ _ p (fun x hx => List.mem_append_left _ hx)
    (List.mem_append_right _ (List.mem_singleton.mpr rfl)) (hGet_mem_snd hh) hp

/-- `get_inheritance_chain` of src/tools/generate_schema.py. -/
def get_inheritance_chain (name : String) (h : List (String × String)) : List String :=
  (chainLoop h [name] name).reverse

/-- First match of `kw ++ (\w+Template)\s+:\s+(\w+)` in a line. -/
def hierPairInLine (kw : List Char) : List Char → Option (String × String)
  | [] => none
  | c :: cs =>
    match (if charsStarts kw (c :: cs) then
        (let rest := List.drop kw.length (c :: cs)
         let w := rest.takeWhile isWordChar
         if w.isEmpty || !(strEnds "Template" (String.mk w)) || w.length ≤ 8 then none
         else
           let r2 := rest.dropWhile isWordChar
           if (r2.takeWhile (fun x => x.isWhitespace)).isEmpty then none
           else
             match r2.dropWhile (fun x => x.isWhitespace) with
             | ':' :: r3 =>
               if (r3.takeWhile (fun x => x.isWhitespace)).isEmpty then none
               else
                 let p := (r3.dropWhile (fun x => x.isWhitespace)).takeWhile isWordChar
                 if p.isEmpty then none else some (String.mk w, String.mk p)
             | _ => none)
      else none) with
    | some r => some r
    | none => hierPairInLine kw cs

/-- `build_template_hierarchy` of src/tools/generate_schema.py, including
its conditional expression whose two branches are the same `parent`. -/
def build_template_hierarchy (content : List String)
    (template_names : List String) : List (String × String) :=
  (content.filterMap (fun l => hierPairInLine "public class ".data l.data) ++
   content.filterMap (fun l => hierPairInLine "public abstract class ".data l.data)).filterMap
    (fun cp =>
      if cp.1 ∈ template_names then
        some (cp.1,
          if strEnds "Template" cp.2 ||
              (cp.2 = "ScriptableObject" || cp.2 = "SerializedScriptableObject")
          then cp.2 else cp.2)
      else none)

/-- First match of `kw ++ (\w+Template)\s` in a line. -/
def tmplNameInLine (kw : List Char) : List Char → Option String
  | [] => none
  | c :: cs =>
    match (if charsStarts kw (c :: cs) then
        (let rest := List.drop kw.length (c :: cs)
         let w := rest.takeWhile isWordChar
         if w.isEmpty || !(strEnds "Template" (String.mk w)) || w.length ≤ 8 then none
         else
           match (rest.dropWhile isWordChar).head? with
           | none => some (String.mk w)
           | some c2 => if c2.isWhitespace then some (String.mk w) else none)
      else none) with
    | some r => some r
    | none => tmplNameInLine kw cs

/-- `parse_all_templates` of src/tools/generate_schema.py. -/
def parse_all_templates (content : List String) : List String :=
  let raw := content.filterMap (fun l => tmplNameInLine "public class ".data l.data) ++
             content.filterMap (fun l => tmplNameInLine "public abstract class ".data l.data)
  sortStrings ((dedupFirst raw).filter (fun t =>
    !(strHasSub "." t) && !(strHasSub "Uxml" t) && t ≠ "DataTemplateLoader"))

/-- Inheritance-map assembly of `build_schema` (one chain per template that
is a key of the hierarchy). -/
def buildInheritance (content : List String) : List (String × List String) :=
  let names := parse_all_templates content
  let h := build_template_hierarchy content names
  names.filterMap (fun t =>
    if t ∈ h.map (fun p => p.1) then some (t, get_inheritance_chain t h) else none)

/-! ## Type classification (`classify_field`) -/

def PRIMITIVE_TYPES : List String := ["int", "Int32", "float", "Single", "bool",
  "Boolean", "byte", "Byte", "short", "Int16", "long", "Int64", "double", "Double"]

def UNITY_ASSET_TYPES : List String := ["Sprite", "Texture2D", "Material", "Mesh",
  "AudioClip", "AnimationClip", "GameObject", "RuntimeAnimatorController"]

def LOCALIZATION_TYPES : List String := ["LocalizedLine", "LocalizedMultiLine"]

/-- Python `field_type.rstrip("[]")`: drop trailing square-bracket
characters. -/
def rstripSquare (s : String) : String :=
  String.mk (s.data.reverse.dropWhile (fun c => c = '[' || c = ']')).reverse

/-- `re.match(r"List<(\w+)>", field_type)`: an anchored match of `List<`,
a nonempty word, `>`. -/
def listMatch (ft : String) : Option String :=
  if strStarts "List<" ft then
    let rest := ft.data.drop 5
    let w := rest.takeWhile isWordChar
    if !w.isEmpty && (rest.dropWhile isWordChar).head? = some '>' then
      some (String.mk w)
    else none
  else none

/-- `classify_field` of src/tools/generate_schema.py. -/
def classify_field (field_type : String)
    (known_enums known_structs known_templates : List String) :
    String × Option String :=
  let base := rstripSquare field_type
  if base ∈ PRIMITIVE_TYPES then ("primitive", none)
  else if base = "string" || base = "String" then ("string", none)
  else if base ∈ known_enums then ("enum", none)
  else if base ∈ known_structs then ("struct", none)
  else if base ∈ LOCALIZATION_TYPES then ("localization", none)
  else if base ∈ UNITY_ASSET_TYPES then ("unity_asset", none)
  else
    match listMatch field_type with
    | some t => ("collection", some t)
    | none =>
      if strHasSub "[]" field_type then ("collection", some base)
      else if strEnds "Template" base && base ∈ known_templates then ("reference", none)
      else if (match base.data.head? with
               | some c => c.isUpper
               | none => false) &&
          !(base.data.any (fun c => c = '<' || c = '>' || c = '[' || c = ']' || c = '.'))
        then ("reference", none)
      else ("unknown", none)

/-! ## Struct parsing (`parse_all_structs`) -/

/-- First occurrence of `public struct (\w+)` in a line. -/
def structNameInLine : List Char → Option String
  | [] => none
  | c :: cs =>
    if charsStarts "public struct ".data (c :: cs) then
      let w := (List.drop 14 (c :: cs)).takeWhile isWordChar
      if w.isEmpty then structNameInLine cs else some (String.mk w)
    else structNameInLine cs

/-- Split at the first line starting with a closing brace, also returning
the lines after it (where `re.finditer` resumes scanning). -/
def splitAtClose : List String → Option (List String × List String)
  | [] => none
  | l :: ls =>
    if strStarts "\x7d" l then some ([], ls)
    else (splitAtClose ls).map (fun pr => (l :: pr.1, pr.2))

/-- `\s`-then-`name;` scan for the tail of the static-field regex: some
position at index ≥ 1 is whitespace and immediately followed by `pat`. -/
def scanNameSemi (pat : List Char) : List Char → Bool
  | [] => false
  | c :: cs => (c.isWhitespace && charsStarts pat cs) || scanNameSemi pat cs

/-- Tail of `(?:public|private) static\s+.*\s+name;` after the literal
keyword: at least one whitespace, then the name preceded by whitespace. -/
def staticTail (name : String) : List Char → Bool
  | [] => false
  | c :: cs => c.isWhitespace && scanNameSemi (name.data ++ [';']) cs

/-- One line matches `(?:public|private) static\s+.*\s+name;`. -/
def staticDeclLine (name : String) : List Char → Bool
  | [] => false
  | c :: cs =>
    (if charsStarts "public static".data (c :: cs) then
       staticTail name (List.drop 13 (c :: cs))
     else if charsStarts "private static".data (c :: cs) then
       staticTail name (List.drop 14 (c :: cs))
     else false) || staticDeclLine name cs

/-- `re.search` of the static-field pattern over the struct body. -/
def hasStaticDecl (name : String) (body : List String) : Bool :=
  body.any (fun l => staticDeclLine name l.data)

/-- Field lines of a struct body: the IL2CPP-internal skips of the class
parser, but offset `0` kept unless a `static` declaration of the same name
occurs in the body. -/
def structFieldsOf (body : List String) : List RawField :=
  body.filterMap (fun l =>
    match findFieldMatch l.data with
    | some (ty, nm, off) =>
      if (!(strStarts "NativeFieldInfoPtr" nm) && !(strStarts "Il2Cpp" nm) &&
          !(strHasSub "k__BackingField" nm)) && !(hasStaticDecl nm body)
      then some ⟨ty, nm, "0x" ++ off⟩ else none
    | none => none)

def hexDigitVal (c : Char) : Nat :=
  if c = '0' then 0 else if c = '1' then 1 else if c = '2' then 2
  else if c = '3' then 3 else if c = '4' then 4 else if c = '5' then 5
  else if c = '6' then 6 else if c = '7' then 7 else if c = '8' then 8
  else if c = '9' then 9 else if c = 'a' || c = 'A' then 10
  else if c = 'b' || c = 'B' then 11 else if c = 'c' || c = 'C' then 12
  else if c = 'd' || c = 'D' then 13 else if c = 'e' || c = 'E' then 14
  else if c = 'f' || c = 'F' then 15 else 0

def hexValAux : List Char → Nat → Nat
  | [], acc => acc
  | c :: cs, acc => hexValAux cs (acc * 16 + hexDigitVal c)

/-- Python `int(s, 16)` on the stored `"0x..."` offset strings. -/
def hexVal (s : String) : Nat :=
  hexValAux (if strStarts "0x" s then s.data.drop 2 else s.data) 0

theorem dropAfterFirst_length {p : String → Bool} :
    ∀ {ls r : List String}, dropAfterFirst p ls = some r → r.length < ls.length := by
  intro ls
  induction ls with
  | nil => intro r h; simp [dropAfterFirst] at h
  | cons l ls ih =>
    intro r h
    simp only [dropAfterFirst] at h
    by_cases hp : p l
    · simp only [hp, if_true] at h
      cases h
      simp
    · simp only [hp, Bool.false_eq_true, if_false] at h
      exact Nat.lt_succ_of_lt (ih h)

theorem splitAtClose_length :
    ∀ {ls : List String} {pr : List String × List String},
    splitAtClose ls = some pr → pr.2.length < ls.length := by
  intro ls
  induction ls with
  | nil => intro pr h; simp [splitAtClose] at h
  | cons l ls ih =>
    intro pr h
    simp only [splitAtClose] at h
    by_cases hc : strStarts "\x7d" l
    · simp only [hc, if_true] at h
      cases h
      simp
    · simp only [hc, Bool.false_eq_true, if_false] at h
      cases hsp : splitAtClose ls with
      | none => rw [hsp] at h; simp at h
      | some pr2 =>
        rw [hsp] at h
        simp only [Option.map_some', Option.some.injEq] at h
        have := ih hsp
        rw [← h]
        exact Nat.lt_succ_of_lt this

/-- `parse_all_structs` of src/tools/generate_schema.py: scan declarations
in order (`re.finditer`), parse each body's fields, skip field-less
structs, and estimate the size as the last field's offset plus 4.
Duplicate struct names overwrite dict-style; lookups on the result use
`alookLast` accordingly. -/
def parse_all_structs : List String → List (String × StructInfo)
  | [] => []
  | l :: ls =>
    match structNameInLine l.data with
    | none => parse_all_structs ls
    | some name =>
      match ho : dropAfterFirst (fun x => x = "\x7b") ls with
      | none => parse_all_structs ls
      | some afterOpen =>
        match hc : splitAtClose afterOpen with
        | none => parse_all_structs ls
        | some (body, rest) =>
          let fields := structFieldsOf body
          (match fields.getLast? with
           | some lastF => [(name, ⟨hexVal lastF.offset + 4, fields⟩)]
           | none => []) ++ parse_all_structs rest
termination_by ls => ls.length
decreasing_by
  all_goals first
  | (simp; done)
  | (have h1 := dropAfterFirst_length ho
     have h2 := splitAtClose_length hc
     simp at h2 ⊢
     omega)

/-! ## Unfolding lemmas for the well-founded recursions -/

theorem collect_visited {content : List String} {name : String}
    {visited : List String} (h : name ∈ visited) :
    collect_all_fields content name visited = [] := by
  rw [collect_all_fields.eq_def, dif_pos h]

theorem collect_parse_none {content : List String} {name : String}
    {visited : List String} (h1 : name ∉ visited)
    (h2 : parse_class_from_dump content name = none) :
    collect_all_fields content name visited = [] := by
  rw [collect_all_fields.eq_def, dif_neg h1]
  split
  · rfl
  · next info hp => rw [h2] at hp; cases hp

theorem collect_parse_some {content : List String} {name : String}
    {visited : List String} {info : ClassInfo} (h1 : name ∉ visited)
    (h2 : parse_class_from_dump content name = some info) :
    collect_all_fields content name visited =
      (match info.base with
       | some b =>
         if b ∈ stopBases then info.fields
         else collect_all_fields content b (name :: visited) ++ info.fields
       | none => info.fields) := by
  rw [collect_all_fields.eq_def, dif_neg h1]
  split
  · next hp => rw [h2] at hp; cases hp
  · next info2 hp =>
    rw [h2] at hp
    cases hp
    rfl

theorem collectVisits_visited {content : List String} {name : String}
    {visited : List String} (h : name ∈ visited) :
    collectVisits content name visited = [] := by
  rw [collectVisits.eq_def, dif_pos h]

theorem collectVisits_parse_none {content : List String} {name : String}
    {visited : List String} (h1 : name ∉ visited)
    (h2 : parse_class_from_dump content name = none) :
    collectVisits content name visited = [name] := by
  rw [collectVisits.eq_def, dif_neg h1]
  split
  · rfl
  · next info hp => rw [h2] at hp; cases hp

theorem collectVisits_parse_some {content : List String} {name : String}
    {visited : List String} {info : ClassInfo} (h1 : name ∉ visited)
    (h2 : parse_class_from_dump content name = some info) :
    collectVisits content name visited =
      (match info.base with
       | some b =>
         if b ∈ stopBases then [name]
         else name :: collectVisits content b (name :: visited)
       | none => [name]) := by
  rw [collectVisits.eq_def, dif_neg h1]
  split
  · next hp => rw [h2] at hp; cases hp
  · next info2 hp =>
    rw [h2] at hp
    cases hp
    rfl

theorem chainLoop_none {h : List (String × String)} {chain : List String}
    {current : String} (hh : hGet h current = none) :
    chainLoop h chain current = chain := by
  rw [chainLoop.eq_def]
  split
  · rfl
  · next p hp => rw [hh] at hp; cases hp

theorem chainLoop_some {h : List (String × String)} {chain : List String}
    {current p : String} (hh : hGet h current = some p) :
    chainLoop h chain current =
      (if p = "" then chain
       else if p ∈ chain then chain
       else chainLoop h (chain ++ [p]) p) := by
  rw [chainLoop.eq_def]
  split
  · next hp => rw [hh] at hp; cases hp
  · next q hp =>
    rw [hh] at hp
    cases hp
    by_cases he : p = ""
    · rw [if_pos he, if_pos he]
    · rw [if_neg he, if_neg he]
      by_cases hm : p ∈ chain
      · rw [dif_pos hm, if_pos hm]
      · rw [dif_neg hm, if_neg hm]

theorem parse_all_structs_nil : parse_all_structs [] = [] := by
  rw [parse_all_structs.eq_def]

theorem parse_all_structs_noname {l : String} {ls : List String}
    (h : structNameInLine l.data = none) :
    parse_all_structs (l :: ls) = parse_all_structs ls := by
  rw [parse_all_structs.eq_def]
  simp only [h]

theorem parse_all_structs_name {l : String} {ls afterOpen body rest : List String}
    {name : String} (h : structNameInLine l.data = some name)
    (ho : dropAfterFirst (fun x => x = "\x7b") ls = some afterOpen)
    (hc : splitAtClose afterOpen = some (body, rest)) :
    parse_all_structs (l :: ls) =
      (match (structFieldsOf body).getLast? with
       | some lastF => [(name, ⟨hexVal lastF.offset + 4, structFieldsOf body⟩)]
       | none => []) ++ parse_all_structs rest := by
  rw [parse_all_structs.eq_def]
  simp only [h]
  split
  · next ho2 => rw [ho] at ho2; cases ho2
  · next ao ho2 =>
    rw [ho] at ho2
    cases ho2
    split
    · next hc2 => rw [hc] at hc2; cases hc2
    · next b2 r2 hc2 =>
      rw [hc] at hc2
      cases hc2
      rfl

/-! ## Generic helper lemmas -/

theorem strOfData_inj {a b : String} (h : a.data = b.data) : a = b := by
  cases a
  cases b
  exact congrArg String.mk h

theorem str_ne_of_head {a b : String} (h : a.data.head? ≠ b.data.head?) : a ≠ b :=
  fun e => h (by rw [e])

theorem flatMap_congr {α β : Type} (l : List α) (f g : α → List β)
    (h : ∀ x ∈ l, f x = g x) : l.flatMap f = l.flatMap g := by
  induction l with
  | nil => rfl
  | cons x xs ih =>
    simp only [List.flatMap_cons]
    rw [h x (List.mem_cons_self x xs), ih (fun y hy => h y (List.mem_cons_of_mem _ hy))]

theorem flatMap_nil_of {α β : Type} (l : List α) (f : α → List β)
    (h : ∀ x ∈ l, f x = []) : l.flatMap f = [] := by
  induction l with
  | nil => rfl
  | cons x xs ih =>
    simp only [List.flatMap_cons]
    rw [h x (List.mem_cons_self x xs), ih (fun y hy => h y (List.mem_cons_of_mem _ hy))]
    rfl

theorem filter_not_mem_self (l : List String) :
    l.filter (fun k => ¬ k ∈ l) = [] := by
  rw [List.filter_eq_nil_iff]
  intro a ha
  simp [ha]

theorem filter_mem_self (l : List String) :
    l.filter (fun k => k ∈ l) = l := by
  rw [List.filter_eq_self]
  intro a ha
  simp [ha]

theorem dedupFirst_eq_self_of_nodup {l : List String} (h : l.Nodup) :
    dedupFirst l = l := by
  induction l with
  | nil => rfl
  | cons x xs ih =>
    have hx : x ∉ xs := (List.nodup_cons.mp h).1
    rw [dedupFirst, ih (List.nodup_cons.mp h).2, List.filter_eq_self.mpr]
    intro a ha
    have hax : a ≠ x := fun e => hx (e ▸ ha)
    simp [hax]

theorem nodup_middle_not_mem {α : Type} {l1 l2 : List α} {a : α}
    (h : (l1 ++ a :: l2).Nodup) : a ∉ l1 ∧ a ∉ l2 := by
  rw [List.nodup_append] at h
  obtain ⟨_, h2, hdis⟩ := h
  exact ⟨fun hm => hdis hm (List.mem_cons_self a l2), (List.nodup_cons.mp h2).1⟩

theorem length_filter_split (l : List String) (p : String → Bool) :
    (l.filter p).length + (l.filter (fun x => ¬ p x)).length = l.length := by
  induction l with
  | nil => rfl
  | cons x xs ih =>
    simp only [List.filter_cons, List.length_cons]
    by_cases hx : p x
    · rw [if_pos hx, if_neg (by simpa using hx)]
      simp only [List.length_cons]
      omega
    · rw [if_neg hx, if_pos (by simpa using hx)]
      simp only [List.length_cons]
      omega

theorem filterMap_ite_single {α β : Type} [DecidableEq α] (l : List α)
    (p : α → Option β) (a : α) (x : β)
    (h : ∀ b ∈ l, p b = if b = a then some x else none)
    (ha : a ∈ l) (hn : l.Nodup) : l.filterMap p = [x] := by
  induction l with
  | nil => cases ha
  | cons y ys ih =>
    by_cases hy : y = a
    · subst hy
      have hys : ∀ b ∈ ys, p b = none := by
        intro b hb
        rw [h b (List.mem_cons_of_mem _ hb)]
        have : b ≠ y := fun e => (List.nodup_cons.mp hn).1 (e ▸ hb)
        rw [if_neg this]
      rw [List.filterMap_cons, h y (List.mem_cons_self y ys), if_pos rfl]
      rw [List.filterMap_eq_nil_iff.mpr hys]
    · have ha2 : a ∈ ys := by
        rcases List.mem_cons.mp ha with h' | h'
        · exact absurd h'.symm hy
        · exact h'
      rw [List.filterMap_cons, h y (List.mem_cons_self y ys), if_neg hy]
      exact ih (fun b hb => h b (List.mem_cons_of_mem _ hb)) ha2
        (List.nodup_cons.mp hn).2

theorem flatMap_ite_single {α β : Type} [DecidableEq α] (l : List α)
    (f : α → List β) (a : α) (r : List β)
    (h : ∀ b ∈ l, f b = if b = a then r else [])
    (ha : a ∈ l) (hn : l.Nodup) : l.flatMap f = r := by
  induction l with
  | nil => cases ha
  | cons y ys ih =>
    by_cases hy : y = a
    · subst hy
      have hys : ∀ b ∈ ys, f b = [] := by
        intro b hb
        rw [h b (List.mem_cons_of_mem _ hb)]
        have : b ≠ y := fun e => (List.nodup_cons.mp hn).1 (e ▸ hb)
        rw [if_neg this]
      rw [List.flatMap_cons, h y (List.mem_cons_self y ys), if_pos rfl,
        flatMap_nil_of ys f hys, List.append_nil]
    · have ha2 : a ∈ ys := by
        rcases List.mem_cons.mp ha with h' | h'
        · exact absurd h'.symm hy
        · exact h'
      rw [List.flatMap_cons, h y (List.mem_cons_self y ys), if_neg hy,
        List.nil_append]
      exact ih (fun b hb => h b (List.mem_cons_of_mem _ hb)) ha2
        (List.nodup_cons.mp hn).2

theorem map_sum_zero (l : List String) (f : String → Nat)
    (h : ∀ b ∈ l, f b = 0) : (l.map f).sum = 0 := by
  induction l with
  | nil => rfl
  | cons z zs ihz =>
    simp only [List.map_cons, List.sum_cons]
    rw [h z (List.mem_cons_self z zs),
      ihz (fun b hb => h b (List.mem_cons_of_mem _ hb))]

theorem map_sum_ite_single (l : List String) (a : String) (v : Nat)
    (f : String → Nat) (h : ∀ b ∈ l, f b = if b = a then v else 0)
    (ha : a ∈ l) (hn : l.Nodup) : (l.map f).sum = v := by
  induction l with
  | nil => cases ha
  | cons y ys ih =>
    by_cases hy : y = a
    · subst hy
      have hys : (ys.map f).sum = 0 := by
        refine map_sum_zero ys f ?_
        intro b hb
        rw [h b (List.mem_cons_of_mem _ hb)]
        have : b ≠ y := fun e => (List.nodup_cons.mp hn).1 (e ▸ hb)
        rw [if_neg this]
      simp only [List.map_cons, List.sum_cons, hys]
      rw [h y (List.mem_cons_self y ys), if_pos rfl]
      omega
    · have ha2 : a ∈ ys := by
        rcases List.mem_cons.mp ha with h' | h'
        · exact absurd h'.symm hy
        · exact h'
      simp only [List.map_cons, List.sum_cons]
      rw [h y (List.mem_cons_self y ys), if_neg hy,
        ih (fun b hb => h b (List.mem_cons_of_mem _ hb)) ha2
          (List.nodup_cons.mp hn).2]
      omega

theorem filter_flatMap {α β : Type} (l : List α) (f : α → List β) (p : β → Bool) :
    (l.flatMap f).filter p = l.flatMap (fun x => (f x).filter p) := by
  induction l with
  | nil => rfl
  | cons x xs ih =>
    simp only [List.flatMap_cons, List.filter_append, ih]

/-! ## String-shape lemmas for the classifier -/

theorem charsStarts_self_append : ∀ (p r : List Char), charsStarts p (p ++ r) = true := by
  intro p
  induction p with
  | nil => intro r; rfl
  | cons c cs ih => intro r; simp [charsStarts, ih]

theorem charsStarts_mem : ∀ (p l : List Char), charsStarts p l = true →
    ∀ c ∈ p, c ∈ l := by
  intro p
  induction p with
  | nil => intro l _ c hc; cases hc
  | cons x xs ih =>
    intro l h c hc
    cases l with
    | nil => simp [charsStarts] at h
    | cons y ys =>
      simp only [charsStarts, Bool.and_eq_true, decide_eq_true_eq] at h
      rcases List.mem_cons.mp hc with rfl | hc2
      · exact h.1 ▸ List.mem_cons_self _ _
      · exact List.mem_cons_of_mem _ (ih ys h.2 c hc2)

theorem charsHasSub_append_self : ∀ (l p : List Char), charsHasSub p (l ++ p) = true := by
  intro l p
  induction l with
  | nil =>
    cases p with
    | nil => rfl
    | cons c cs =>
      simp only [List.nil_append, charsHasSub]
      rw [show charsStarts (c :: cs) (c :: cs) = true from
        by simpa using charsStarts_self_append (c :: cs) []]
      rfl
  | cons x xs ih =>
    show (charsStarts p (x :: (xs ++ p)) || charsHasSub p (xs ++ p)) = true
    rw [ih]
    simp

theorem takeWhile_append_stop (p : Char → Bool) :
    ∀ (a : List Char) (d : Char) (r : List Char),
    (∀ c ∈ a, p c = true) → p d = false →
    (a ++ d :: r).takeWhile p = a ∧ (a ++ d :: r).dropWhile p = d :: r := by
  intro a
  induction a with
  | nil =>
    intro d r _ hd
    simp [List.takeWhile_cons, List.dropWhile_cons, hd]
  | cons x xs ih =>
    intro d r ha hd
    have hx : p x = true := ha x (List.mem_cons_self _ _)
    have := ih d r (fun c hc => ha c (List.mem_cons_of_mem _ hc)) hd
    simp [List.takeWhile_cons, List.dropWhile_cons, hx, this.1, this.2]

theorem isWordChar_not_bracket {c : Char} (h : isWordChar c = true) :
    (c = '[' || c = ']') = false := by
  cases hb : (c = '[' || c = ']') with
  | false => rfl
  | true =>
    exfalso
    simp only [Bool.or_eq_true, decide_eq_true_eq] at hb
    rcases hb with rfl | rfl <;> simp [isWordChar] at h

theorem data_ne_nil_of_ne {T : String} (h : T ≠ "") : T.data ≠ [] := by
  intro hd
  exact h (strOfData_inj (by simp [hd]))

theorem rstripSquare_word_array {T : String} (hw : isWordStr T = true)
    (hne : T ≠ "") : rstripSquare (T ++ "[]") = T := by
  unfold rstripSquare
  have hdata : (T ++ "[]").data = T.data ++ ['[', ']'] := rfl
  rw [hdata]
  rw [show (T.data ++ ['[', ']']).reverse = ']' :: '[' :: T.data.reverse by simp]
  rw [List.dropWhile_cons, if_pos (by decide)]
  rw [List.dropWhile_cons, if_pos (by decide)]
  cases hrd : T.data.reverse with
  | nil =>
    exact absurd (by simpa using congrArg List.reverse hrd) (data_ne_nil_of_ne hne)
  | cons c rest =>
    have hcT : c ∈ T.data := by
      have : c ∈ T.data.reverse := hrd ▸ List.mem_cons_self _ _
      simpa using this
    have hcw : isWordChar c = true := by
      simp only [isWordStr, List.all_eq_true] at hw
      exact hw c hcT
    rw [List.dropWhile_cons, if_neg (by simp [isWordChar_not_bracket hcw])]
    rw [← hrd, List.reverse_reverse]

theorem rstripSquare_eq_self_of_last {s : String} {c : Char} {rest : List Char}
    (h : s.data.reverse = c :: rest) (hc : (c = '[' || c = ']') = false) :
    rstripSquare s = s := by
  unfold rstripSquare
  rw [h, List.dropWhile_cons, if_neg (by simp_all)]
  rw [← h]
  simp only [List.reverse_reverse]

theorem listMatch_concat {T : String} (hw : isWordStr T = true) (hne : T ≠ "") :
    listMatch ("List<" ++ T ++ ">") = some T := by
  unfold listMatch
  have hdata : ("List<" ++ T ++ ">").data = "List<".data ++ (T.data ++ ['>']) := by
    show (("List<" ++ T) ++ ">").data = _
    simp [String.data_append]
  have hstart : strStarts "List<" ("List<" ++ T ++ ">") = true := by
    unfold strStarts
    rw [hdata]
    exact charsStarts_self_append _ _
  rw [if_pos hstart]
  have hdrop : ("List<" ++ T ++ ">").data.drop 5 = T.data ++ ['>'] := by
    rw [hdata]
    exact List.drop_left "List<".data _
  rw [hdrop]
  have hall : ∀ c ∈ T.data, isWordChar c = true := by
    simp only [isWordStr, List.all_eq_true] at hw
    exact hw
  have hgt : isWordChar '>' = false := by decide
  have hsplit := takeWhile_append_stop isWordChar T.data '>' [] hall hgt
  simp only [hsplit.1, hsplit.2]
  have hcond : (!T.data.isEmpty && decide ((['>'] : List Char).head? = some '>')) = true := by
    simp [List.isEmpty_iff, data_ne_nil_of_ne hne]
  rw [if_pos hcond]

theorem listMatch_array_none {T : String} (hw : isWordStr T = true) :
    listMatch (T ++ "[]") = none := by
  unfold listMatch
  rw [if_neg ?_]
  intro hstart
  unfold strStarts at hstart
  have hlt : '<' ∈ (T ++ "[]").data :=
    charsStarts_mem _ _ hstart '<' (by decide)
  have : (T ++ "[]").data = T.data ++ ['[', ']'] := rfl
  rw [this] at hlt
  rcases List.mem_append.mp hlt with h1 | h1
  · simp only [isWordStr, List.all_eq_true] at hw
    have := hw '<' h1
    simp [isWordChar] at this
  · simp at h1

theorem strHasSub_array (T : String) : strHasSub "[]" (T ++ "[]") = true := by
  unfold strHasSub
  have : (T ++ "[]").data = T.data ++ "[]".data := rfl
  rw [this]
  exact charsHasSub_append_self _ _

/-! ## Claim C4 -/

/-- C4 counterexample: `int[]` — a `T[]` collection with a primitive element
name — is classified as `primitive`, not as `collection` with
`element_type = int`, because the classifier strips the array suffix before
the earlier category tests. -/
theorem C4_counterexample :
    classify_field "int[]" [] [] [] = ("primitive", none) ∧
    classify_field "int[]" [] [] [] ≠ ("collection", some "int") := by
  constructor
  · decide
  · decide

/-- C4 (amended): `List<T>` is classified as `collection` with element `T`
for every word `T` (provided `List<T>` itself is not a known enum/struct
name), but `T[]` reaches the collection branch only when `T` — the name
with array brackets stripped — misses every earlier category (primitive,
string, known enum, known struct, localized-text, asset); the decision
order tests those categories on the bracket-stripped name, not on the full
array syntax. -/
theorem C4_amended (T : String) (known_enums known_structs known_templates : List String)
    (hw : isWordStr T = true) (hne : T ≠ "")
    (h1 : T ∉ PRIMITIVE_TYPES) (h2 : T ≠ "string") (h3 : T ≠ "String")
    (h4 : T ∉ known_enums) (h5 : T ∉ known_structs)
    (h6 : T ∉ LOCALIZATION_TYPES) (h7 : T ∉ UNITY_ASSET_TYPES)
    (g1 : ("List<" ++ T ++ ">") ∉ PRIMITIVE_TYPES)
    (g4 : ("List<" ++ T ++ ">") ∉ known_enums)
    (g5 : ("List<" ++ T ++ ">") ∉ known_structs)
    (g6 : ("List<" ++ T ++ ">") ∉ LOCALIZATION_TYPES)
    (g7 : ("List<" ++ T ++ ">") ∉ UNITY_ASSET_TYPES) :
    classify_field (T ++ "[]") known_enums known_structs known_templates =
      ("collection", some T) ∧
    classify_field ("List<" ++ T ++ ">") known_enums known_structs known_templates =
      ("collection", some T) := by
  constructor
  · unfold classify_field
    rw [rstripSquare_word_array hw hne]
    rw [if_neg h1, if_neg (by simp [h2, h3]), if_neg h4, if_neg h5, if_neg h6,
      if_neg h7, listMatch_array_none hw]
    rw [if_pos (strHasSub_array T)]
  · have hLdata : ("List<" ++ T ++ ">").data = "List<".data ++ (T.data ++ ['>']) := by
      show (("List<" ++ T) ++ ">").data = _
      simp [String.data_append]
    have hrev : ("List<" ++ T ++ ">").data.reverse = '>' :: ("List<".data ++ T.data).reverse := by
      show (("List<" ++ T) ++ ">").data.reverse = _
      simp [String.data_append]
    have hbase : rstripSquare ("List<" ++ T ++ ">") = ("List<" ++ T ++ ">") :=
      rstripSquare_eq_self_of_last hrev (by decide)
    have hhead : ("List<" ++ T ++ ">").data.head? = some 'L' := by
      rw [hLdata]
      rfl
    have g2 : ("List<" ++ T ++ ">") ≠ "string" :=
      str_ne_of_head (by rw [hhead]; decide)
    have g3 : ("List<" ++ T ++ ">") ≠ "String" :=
      str_ne_of_head (by rw [hhead]; decide)
    simp only [classify_field]
    rw [hbase]
    rw [if_neg g1, if_neg (by simp [g2, g3]), if_neg g4, if_neg g5, if_neg g6,
      if_neg g7, listMatch_concat hw hne]

/-- C4 witness: a concrete instantiation of the amended classification
claim. -/
theorem C4_amended_witness :
    classify_field ("Foo" ++ "[]") [] [] [] = ("collection", some "Foo") ∧
    classify_field ("List<" ++ "Foo" ++ ">") [] [] [] = ("collection", some "Foo") :=
  C4_amended "Foo" [] [] [] (by decide) (by decide) (by decide) (by decide)
    (by decide) (by decide) (by decide) (by decide) (by decide) (by decide)
    (by decide) (by decide) (by decide) (by decide)

/-! ## Claim C3 -/

/-- A dump whose class body contains a nested brace pair closed at column 0. -/
def dumpNested : List String :=
  ["public class Foo : Bar // t",
   "\x7b",
   "\tpublic int a; // 0x10",
   "\x7b",
   "\x7d",
   "\tpublic int b; // 0x20",
   "\x7d"]

/-- C3 counterexample: on a body containing a nested brace pair the
extractor stops at the first closing-brace line, truncating the body (the
field `b` after the nested block is lost), while the depth-aware scanner
the spec describes captures the full body. -/
theorem C3_counterexample :
    extractBodyN "public class " "Foo" dumpNested =
      some ["\tpublic int a; // 0x10", "\x7b"] ∧
    extractBodyD "public class " "Foo" dumpNested =
      some ["\tpublic int a; // 0x10", "\x7b", "\x7d", "\tpublic int b; // 0x20"] ∧
    (parse_class_from_dump dumpNested "Foo").map ClassInfo.fields =
      some [⟨"int", "a", "0x10"⟩] ∧
    (["\tpublic int a; // 0x10", "\x7b"] : List String) ≠
      ["\tpublic int a; // 0x10", "\x7b", "\x7d", "\tpublic int b; // 0x20"] := by
  refine ⟨by decide, by decide, by decide, by decide⟩

theorem scanLine_no_braces {cs : List Char} {d : Nat}
    (h : ∀ c ∈ cs, ¬ c = '\x7b' ∧ ¬ c = '\x7d') : scanLine d cs = some d := by
  induction cs with
  | nil => rfl
  | cons c cs ih =>
    have hc := h c (List.mem_cons_self _ _)
    rw [scanLine, if_neg hc.1, if_neg hc.2]
    exact ih (fun x hx => h x (List.mem_cons_of_mem _ hx))

theorem strStarts_close_data {l : String} (h : strStarts "\x7d" l = true) :
    ∃ cs, l.data = '\x7d' :: cs := by
  unfold strStarts at h
  cases hd : l.data with
  | nil => rw [hd] at h; simp [charsStarts] at h
  | cons c cs =>
    rw [hd] at h
    simp only [charsStarts, Bool.and_eq_true, decide_eq_true_eq] at h
    exact ⟨cs, by rw [h.1.symm]⟩

theorem takeNaive_to_depth : ∀ (ls b : List String),
    takeUntilCloseNaive ls = some b →
    (∀ l ∈ b, ∀ c ∈ l.data, ¬ c = '\x7b' ∧ ¬ c = '\x7d') →
    takeUntilCloseDepth 1 ls = some b := by
  intro ls
  induction ls with
  | nil => intro b h _; simp [takeUntilCloseNaive] at h
  | cons l ls ih =>
    intro b h hb
    rw [takeUntilCloseNaive] at h
    by_cases hc : strStarts "\x7d" l
    · rw [if_pos hc] at h
      cases h
      obtain ⟨cs, hcs⟩ := strStarts_close_data hc
      rw [takeUntilCloseDepth, hcs]
      rw [show scanLine 1 ('\x7d' :: cs) = none from by rw [scanLine]; simp]
    · rw [if_neg hc] at h
      cases hn : takeUntilCloseNaive ls with
      | none => rw [hn] at h; simp at h
      | some b' =>
        rw [hn] at h
        simp only [Option.map_some', Option.some.injEq] at h
        subst h
        have hl : ∀ c ∈ l.data, ¬ c = '\x7b' ∧ ¬ c = '\x7d' :=
          fun c hcm => hb l (List.mem_cons_self _ _) c hcm
        rw [takeUntilCloseDepth, scanLine_no_braces hl]
        show Option.map (fun b => l :: b) (takeUntilCloseDepth 1 ls) = some (l :: b')
        rw [ih b' hn (fun x hx c hcm => hb x (List.mem_cons_of_mem _ hx) c hcm)]
        rfl

/-- C3 (amended): body extraction is not depth-aware — it stops at the
first line beginning with a closing brace (`C3_counterexample` shows the
truncation on a nested pair) — and it agrees with the spec's depth-counting
scanner exactly on bodies free of brace characters. -/
theorem C3_amended (kw name : String) (lines b : List String)
    (h : extractBodyN kw name lines = some b)
    (hb : ∀ l ∈ b, ∀ c ∈ l.data, ¬ c = '\x7b' ∧ ¬ c = '\x7d') :
    extractBodyD kw name lines = some b := by
  unfold extractBodyN at h
  unfold extractBodyD
  cases h1 : dropAfterFirst (isHeaderLine kw name) lines with
  | none => rw [h1] at h; simp at h
  | some r =>
    rw [h1] at h
    rw [Option.some_bind] at h ⊢
    cases h2 : dropAfterFirst (fun l => l = "\x7b") r with
    | none => rw [h2] at h; simp at h
    | some r2 =>
      rw [h2] at h
      rw [Option.some_bind] at h ⊢
      exact takeNaive_to_depth r2 b h hb

/-- C3 witness: the amended agreement at a concrete brace-free body. -/
theorem C3_amended_witness :
    extractBodyD "public class " "Baz"
      ["public class Baz : Qux // t", "\x7b", "\tpublic int a; // 0x10", "\x7d"] =
      some ["\tpublic int a; // 0x10"] :=
  C3_amended "public class " "Baz"
    ["public class Baz : Qux // t", "\x7b", "\tpublic int a; // 0x10", "\x7d"]
    ["\tpublic int a; // 0x10"] (by decide) (by decide)

/-! ## Claim C5 -/

/-- A class whose first declared instance field sits at offset 0x0. -/
def dumpPt : List String :=
  ["public class Pt : Obj // t",
   "\x7b",
   "\tpublic int x; // 0x0",
   "\tpublic int y; // 0x4",
   "\x7d"]

/-- A struct whose only field sits at offset 0x0 with no static declaration. -/
def dumpVec : List String :=
  ["public struct Vec // x",
   "\x7b",
   "\tpublic float m; // 0x0",
   "\x7d"]

/-- C5 counterexample: in class field parsing the offset-0 instance field
`x` is present in the dump (the field regex matches its line) yet excluded
from the parsed field list unconditionally — not only for static members. -/
theorem C5_counterexample :
    findFieldMatch ("\tpublic int x; // 0x0" : String).data = some ("int", "x", "0") ∧
    parse_class_from_dump dumpPt "Pt" =
      some ⟨"Pt", some "Obj", false, [⟨"int", "y", "0x4"⟩]⟩ ∧
    (∀ f ∈ [(⟨"int", "y", "0x4"⟩ : RawField)], f.name ≠ "x") := by
  refine ⟨by decide, by decide, by decide⟩

theorem mem_parseClassFields {body : List String} {f : RawField}
    (h : f ∈ parseClassFields body) :
    ∃ off, f.offset = "0x" ++ off ∧ off ≠ "0" := by
  unfold parseClassFields at h
  obtain ⟨l, _, hm⟩ := List.mem_filterMap.mp h
  cases hf : findFieldMatch l.data with
  | none => rw [hf] at hm; cases hm
  | some tr =>
    rw [hf] at hm
    obtain ⟨ty, nm, off⟩ := tr
    have hm2 : (if classFieldKeep nm off = true then
        some (⟨ty, nm, "0x" ++ off⟩ : RawField) else none) = some f := hm
    by_cases hk : classFieldKeep nm off
    · rw [if_pos hk] at hm2
      cases hm2
      refine ⟨off, rfl, ?_⟩
      unfold classFieldKeep at hk
      simp only [Bool.and_eq_true, Bool.not_eq_true', decide_eq_false_iff_not] at hk
      exact hk.2
    · rw [if_neg (by simpa using hk)] at hm2
      cases hm2

/-- C5 (amended): class field parsing excludes every field whose offset
comment is literally `0` — static or not (`C5_counterexample` shows a
dropped offset-0 instance field) — while struct field parsing retains an
offset-0 instance field when no static declaration of that name exists. -/
theorem C5_amended :
    (∀ (content : List String) (name : String) (info : ClassInfo),
        parse_class_from_dump content name = some info →
        ∀ f ∈ info.fields, f.offset ≠ "0x0") ∧
    parse_all_structs dumpVec = [("Vec", ⟨4, [⟨"float", "m", "0x0"⟩]⟩)] := by
  constructor
  · intro content name info hp f hf
    have hfields : ∃ body, info.fields = parseClassFields body := by
      unfold parse_class_from_dump at hp
      cases hm : (match extractBodyN "public class " name content with
                  | some b => some b
                  | none => extractBodyN "public abstract class " name content) with
      | none => rw [hm] at hp; cases hp
      | some body =>
        rw [hm] at hp
        cases hp
        exact ⟨body, rfl⟩
    obtain ⟨body, hbody⟩ := hfields
    rw [hbody] at hf
    obtain ⟨off, hoff, hne⟩ := mem_parseClassFields hf
    rw [hoff]
    intro he
    apply hne
    have : off.data = ['0'] := by
      have hd := congrArg String.data he
      simpa [String.data_append] using hd
    exact strOfData_inj (by simp [this])
  · rw [show dumpVec = "public struct Vec // x" ::
        ["\x7b", "\tpublic float m; // 0x0", "\x7d"] from rfl]
    rw [@parse_all_structs_name "public struct Vec // x"
      ["\x7b", "\tpublic float m; // 0x0", "\x7d"]
      ["\tpublic float m; // 0x0", "\x7d"] ["\tpublic float m; // 0x0"] [] "Vec"
      (by decide) (by decide) (by decide)]
    rw [parse_all_structs_nil]
    decide

/-- C5 witness: the amended class-side exclusion applied at a concrete
parse. -/
theorem C5_amended_witness :
    ∀ f ∈ [(⟨"int", "y", "0x4"⟩ : RawField)], f.offset ≠ "0x0" :=
  C5_amended.1 dumpPt "Pt" ⟨"Pt", some "Obj", false, [⟨"int", "y", "0x4"⟩]⟩ (by decide)

/-! ## Claim C6 -/

/-- A dump whose only template inherits from a plain (non-template,
non-sentinel) class. -/
def dumpC6 : List String :=
  ["public class FooTemplate : Widget // c",
   "\x7b",
   "\tpublic int x; // 0x10",
   "\x7d"]

/-- C6: the hierarchy walk appends the parent before checking whether it is
itself a template, and the hierarchy builder's template-or-sentinel
conditional has identical branches, so a non-template, non-sentinel base
name (`Widget`) does appear in the recorded chain — the code contradicts
the documented walk, which must break before recording such a base. -/
theorem C6_nontemplate_base_recorded :
    buildInheritance dumpC6 = [("FooTemplate", ["Widget", "FooTemplate"])] ∧
    strEnds "Template" "Widget" = false ∧
    ("Widget" : String) ∉ (["ScriptableObject", "SerializedScriptableObject"] : List String) ∧
    ("Widget" : String) ∉ parse_all_templates dumpC6 := by
  have h1 : parse_all_templates dumpC6 = ["FooTemplate"] := by decide
  have h2 : build_template_hierarchy dumpC6 ["FooTemplate"] =
      [("FooTemplate", "Widget")] := by decide
  have hc1 : hGet [("FooTemplate", "Widget")] "FooTemplate" = some "Widget" := by decide
  have hc2 : hGet [("FooTemplate", "Widget")] "Widget" = none := by decide
  have hchain : get_inheritance_chain "FooTemplate" [("FooTemplate", "Widget")] =
      ["Widget", "FooTemplate"] := by
    unfold get_inheritance_chain
    rw [chainLoop_some hc1, if_neg (by decide), if_neg (by decide),
      chainLoop_none hc2]
    decide
  refine ⟨?_, by decide, by decide, ?_⟩
  · have hfun : (if "FooTemplate" ∈ List.map (fun p : String × String => p.1)
          (build_template_hierarchy dumpC6 ["FooTemplate"]) then
        some ("FooTemplate", get_inheritance_chain "FooTemplate"
          (build_template_hierarchy dumpC6 ["FooTemplate"]))
      else none) = some ("FooTemplate", ["Widget", "FooTemplate"]) := by
      rw [h2, if_pos (by decide)]
      rw [show get_inheritance_chain "FooTemplate" [("FooTemplate", "Widget")] =
        ["Widget", "FooTemplate"] from hchain]
    show List.filterMap (fun t => if t ∈ List.map (fun p : String × String => p.1)
        (build_template_hierarchy dumpC6 ["FooTemplate"]) then
          some (t, get_inheritance_chain t (build_template_hierarchy dumpC6 ["FooTemplate"]))
        else none) ["FooTemplate"] = [("FooTemplate", ["Widget", "FooTemplate"])]
    have hfun' : (fun t => if t ∈ List.map (fun p : String × String => p.1)
        (build_template_hierarchy dumpC6 ["FooTemplate"]) then
          some (t, get_inheritance_chain t (build_template_hierarchy dumpC6 ["FooTemplate"]))
        else none) "FooTemplate" = some ("FooTemplate", ["Widget", "FooTemplate"]) := hfun
    exact (List.filterMap_cons_some hfun').trans (by rw [List.filterMap_nil])
  · rw [h1]
    decide

/-! ## Claim C7 -/

theorem collectVisits_spec (content : List String) :
    ∀ (N : Nat) (name : String) (visited : List String),
    ((headerCands content).filter (fun x => ¬ x ∈ visited)).length ≤ N →
    (collectVisits content name visited).Nodup ∧
    ∀ x ∈ collectVisits content name visited, x ∉ visited := by
  intro N
  induction N with
  | zero =>
    intro name visited hm
    by_cases hv : name ∈ visited
    · rw [collectVisits_visited hv]
      exact ⟨List.nodup_nil, by simp⟩
    · cases hp : parse_class_from_dump content name with
      | none =>
        rw [collectVisits_parse_none hv hp]
        exact ⟨by simp, by simpa using hv⟩
      | some info =>
        rw [collectVisits_parse_some hv hp]
        cases hb : info.base with
        | none =>
          exact ⟨by simp, by simpa using hv⟩
        | some b =>
          show (if b ∈ stopBases then [name]
            else name :: collectVisits content b (name :: visited)).Nodup ∧
            ∀ x ∈ (if b ∈ stopBases then [name]
              else name :: collectVisits content b (name :: visited)), x ∉ visited
          by_cases hs : b ∈ stopBases
          · rw [if_pos hs]
            exact ⟨by simp, by simpa using hv⟩
          · exfalso
            have hcand : name ∈ headerCands content := mem_headerCands_of_parse hp
            have hpos : name ∈ (headerCands content).filter (fun x => ¬ x ∈ visited) :=
              List.mem_filter.mpr ⟨hcand, by simpa using hv⟩
            have := List.length_pos.mpr (List.ne_nil_of_mem hpos)
            omega
  | succ n ih =>
    intro name visited hm
    by_cases hv : name ∈ visited
    · rw [collectVisits_visited hv]
      exact ⟨List.nodup_nil, by simp⟩
    · cases hp : parse_class_from_dump content name with
      | none =>
        rw [collectVisits_parse_none hv hp]
        exact ⟨by simp, by simpa using hv⟩
      | some info =>
        rw [collectVisits_parse_some hv hp]
        cases hb : info.base with
        | none =>
          exact ⟨by simp, by simpa using hv⟩
        | some b =>
          show (if b ∈ stopBases then [name]
            else name :: collectVisits content b (name :: visited)).Nodup ∧
            ∀ x ∈ (if b ∈ stopBases then [name]
              else name :: collectVisits content b (name :: visited)), x ∉ visited
          by_cases hs : b ∈ stopBases
          · rw [if_pos hs]
            exact ⟨by simp, by simpa using hv⟩
          · rw [if_neg hs]
            have hlt : ((headerCands content).filter (fun x => ¬ x ∈ (name :: visited))).length <
                ((headerCands content).filter (fun x => ¬ x ∈ visited)).length :=
              length_filter_lt_of_mem _ _ _ name (fun x hx => List.mem_cons_of_mem _ hx)
                (List.mem_cons_self _ _) (mem_headerCands_of_parse hp) hv
            obtain ⟨hnd, hdis⟩ := ih b (name :: visited) (by omega)
            constructor
            · refine List.nodup_cons.mpr ⟨?_, hnd⟩
              intro hmem
              exact (hdis name hmem) (List.mem_cons_self _ _)
            · intro x hx
              rcases List.mem_cons.mp hx with rfl | hx2
              · exact hv
              · intro hxv
                exact (hdis x hx2) (List.mem_cons_of_mem _ hxv)

/-- C7: the base-chain walk of `collect_all_fields` terminates on every
dump and start name — `collect_all_fields` and its instrumented visit trace
`collectVisits` are total functions even on cyclic base declarations (see
`C7_witness` for a cyclic dump) — and one walk never parses the same type
name twice: its visit trace has no duplicates and avoids the incoming
visited set, and a name already visited returns the empty field list
immediately. -/
theorem C7_walk_terminates_no_revisit (content : List String) (name : String)
    (visited : List String) :
    (collectVisits content name visited).Nodup ∧
    (∀ x ∈ collectVisits content name visited, x ∉ visited) ∧
    (name ∈ visited → collect_all_fields content name visited = []) := by
  obtain ⟨h1, h2⟩ := collectVisits_spec content
    ((headerCands content).filter (fun x => ¬ x ∈ visited)).length name visited le_rfl
  exact ⟨h1, h2, fun hv => collect_visited hv⟩

/-- A dump whose two templates each declare the other as base: a cyclic
base relation. -/
def dumpCyc : List String :=
  ["public class XTemplate : YTemplate // t",
   "\x7b",
   "\tpublic int x; // 0x10",
   "\x7d",
   "public class YTemplate : XTemplate // t",
   "\x7b",
   "\tpublic int y; // 0x20",
   "\x7d"]

/-- C7 witness: on the cyclic dump the walk terminates with the trace
`[XTemplate, YTemplate]`, which is duplicate-free, and a visited name
yields no fields. -/
theorem C7_witness :
    collectVisits dumpCyc "XTemplate" [] = ["XTemplate", "YTemplate"] ∧
    (collectVisits dumpCyc "XTemplate" []).Nodup ∧
    collect_all_fields dumpCyc "YTemplate" ["YTemplate"] = [] := by
  have hpX : parse_class_from_dump dumpCyc "XTemplate" =
      some ⟨"XTemplate", some "YTemplate", false, [⟨"int", "x", "0x10"⟩]⟩ := by decide
  have hpY : parse_class_from_dump dumpCyc "YTemplate" =
      some ⟨"YTemplate", some "XTemplate", false, [⟨"int", "y", "0x20"⟩]⟩ := by decide
  have heval : collectVisits dumpCyc "XTemplate" [] = ["XTemplate", "YTemplate"] := by
    rw [collectVisits_parse_some (by simp) hpX]
    show (if "YTemplate" ∈ stopBases then ["XTemplate"]
      else "XTemplate" :: collectVisits dumpCyc "YTemplate" ["XTemplate"]) = _
    rw [if_neg (by decide)]
    rw [collectVisits_parse_some (by decide) hpY]
    show "XTemplate" :: (if "XTemplate" ∈ stopBases then ["YTemplate"]
      else "YTemplate" :: collectVisits dumpCyc "XTemplate" ["YTemplate", "XTemplate"]) = _
    rw [if_neg (by decide)]
    rw [collectVisits_visited (by decide)]
  refine ⟨heval, (C7_walk_terminates_no_revisit dumpCyc "XTemplate" []).1,
    (C7_walk_terminates_no_revisit dumpCyc "YTemplate" ["YTemplate"]).2.2 (by decide)⟩

/-! ## Claim C2 -/

/-- A three-level template chain: A (root) ← B ← C. -/
def dumpABC : List String :=
  ["public class ATemplate : ScriptableObject // t",
   "\x7b",
   "\tpublic int a; // 0x10",
   "\x7d",
   "public class BTemplate : ATemplate // t",
   "\x7b",
   "\tpublic int b; // 0x20",
   "\x7d",
   "public class CTemplate : BTemplate // t",
   "\x7b",
   "\tpublic int c; // 0x30",
   "\x7d"]

/-- C2 counterexample: the recorded chain of `CTemplate` contains the
non-immediate ancestor template `ATemplate`, yet the flattened fields of
`CTemplate` are not the flattened fields of `ATemplate` followed by
`CTemplate`'s own fields — the intermediate `BTemplate` fields sit in
between. -/
theorem C2_counterexample :
    "CTemplate" ∈ (build_template_hierarchy dumpABC
      (parse_all_templates dumpABC)).map (fun p => p.1) ∧
    get_inheritance_chain "CTemplate"
      (build_template_hierarchy dumpABC (parse_all_templates dumpABC)) =
      ["ScriptableObject", "ATemplate", "BTemplate", "CTemplate"] ∧
    "ATemplate" ∈ ["ScriptableObject", "ATemplate", "BTemplate", "CTemplate"] ∧
    collect_all_fields dumpABC "CTemplate" [] =
      [⟨"int", "a", "0x10"⟩, ⟨"int", "b", "0x20"⟩, ⟨"int", "c", "0x30"⟩] ∧
    collect_all_fields dumpABC "ATemplate" [] = [⟨"int", "a", "0x10"⟩] ∧
    (parse_class_from_dump dumpABC "CTemplate").map ClassInfo.fields =
      some [⟨"int", "c", "0x30"⟩] ∧
    collect_all_fields dumpABC "CTemplate" [] ≠
      collect_all_fields dumpABC "ATemplate" [] ++ [⟨"int", "c", "0x30"⟩] := by
  have h1 : parse_all_templates dumpABC = ["ATemplate", "BTemplate", "CTemplate"] := by
    decide
  have h2 : build_template_hierarchy dumpABC ["ATemplate", "BTemplate", "CTemplate"] =
      [("ATemplate", "ScriptableObject"), ("BTemplate", "ATemplate"),
       ("CTemplate", "BTemplate")] := by decide
  have hpA : parse_class_from_dump dumpABC "ATemplate" =
      some ⟨"ATemplate", some "ScriptableObject", false, [⟨"int", "a", "0x10"⟩]⟩ := by
    decide
  have hpB : parse_class_from_dump dumpABC "BTemplate" =
      some ⟨"BTemplate", some "ATemplate", false, [⟨"int", "b", "0x20"⟩]⟩ := by decide
  have hpC : parse_class_from_dump dumpABC "CTemplate" =
      some ⟨"CTemplate", some "BTemplate", false, [⟨"int", "c", "0x30"⟩]⟩ := by decide
  have hh := h2
  have hchain : get_inheritance_chain "CTemplate"
      (build_template_hierarchy dumpABC (parse_all_templates dumpABC)) =
      ["ScriptableObject", "ATemplate", "BTemplate", "CTemplate"] := by
    rw [h1, h2]
    unfold get_inheritance_chain
    rw [chainLoop_some (by decide : hGet [("ATemplate", "ScriptableObject"),
        ("BTemplate", "ATemplate"), ("CTemplate", "BTemplate")] "CTemplate" =
        some "BTemplate"),
      if_neg (by decide), if_neg (by decide)]
    rw [chainLoop_some (by decide : hGet [("ATemplate", "ScriptableObject"),
        ("BTemplate", "ATemplate"), ("CTemplate", "BTemplate")] "BTemplate" =
        some "ATemplate"),
      if_neg (by decide), if_neg (by decide)]
    rw [chainLoop_some (by decide : hGet [("ATemplate", "ScriptableObject"),
        ("BTemplate", "ATemplate"), ("CTemplate", "BTemplate")] "ATemplate" =
        some "ScriptableObject"),
      if_neg (by decide), if_neg (by decide)]
    rw [chainLoop_none (by decide : hGet [("ATemplate", "ScriptableObject"),
        ("BTemplate", "ATemplate"), ("CTemplate", "BTemplate")] "ScriptableObject" =
        none)]
    decide
  have hcA : collect_all_fields dumpABC "ATemplate" [] = [⟨"int", "a", "0x10"⟩] := by
    rw [collect_parse_some (by simp) hpA]
    show (if "ScriptableObject" ∈ stopBases then [(⟨"int", "a", "0x10"⟩ : RawField)]
      else collect_all_fields dumpABC "ScriptableObject" ["ATemplate"] ++
        [⟨"int", "a", "0x10"⟩]) = _
    rw [if_pos (by decide)]
  have hcC : collect_all_fields dumpABC "CTemplate" [] =
      [⟨"int", "a", "0x10"⟩, ⟨"int", "b", "0x20"⟩, ⟨"int", "c", "0x30"⟩] := by
    rw [collect_parse_some (by simp) hpC]
    show (if "BTemplate" ∈ stopBases then [(⟨"int", "c", "0x30"⟩ : RawField)]
      else collect_all_fields dumpABC "BTemplate" ["CTemplate"] ++
        [⟨"int", "c", "0x30"⟩]) = _
    rw [if_neg (by decide)]
    rw [collect_parse_some (by decide) hpB]
    show ((if "ATemplate" ∈ stopBases then [(⟨"int", "b", "0x20"⟩ : RawField)]
      else collect_all_fields dumpABC "ATemplate" ["BTemplate", "CTemplate"] ++
        [⟨"int", "b", "0x20"⟩]) ++ [⟨"int", "c", "0x30"⟩]) = _
    rw [if_neg (by decide)]
    rw [collect_parse_some (by decide) hpA]
    show (((if "ScriptableObject" ∈ stopBases then [(⟨"int", "a", "0x10"⟩ : RawField)]
      else collect_all_fields dumpABC "ScriptableObject"
        ["ATemplate", "BTemplate", "CTemplate"] ++ [⟨"int", "a", "0x10"⟩]) ++
      [⟨"int", "b", "0x20"⟩]) ++ [⟨"int", "c", "0x30"⟩]) = _
    rw [if_pos (by decide)]
    decide
  refine ⟨by rw [h1, h2]; decide, hchain, by decide, hcC, hcA, by decide, ?_⟩
  rw [hcC, hcA]
  decide

/-- C2 (amended): the flattening equation holds for the immediate parent
only — if `T` parses with base `P`, `P` is not a terminal stop base, and
flattening `P` is unaffected by marking `T` visited (no base cycle back to
`T`), then `flattened(T) = flattened(P) ++ own(T)`; the original claim over
an arbitrary recorded ancestor fails (`C2_counterexample`). -/
theorem C2_amended (content : List String) (T P : String) (info : ClassInfo)
    (hparse : parse_class_from_dump content T = some info)
    (hbase : info.base = some P)
    (hstop : P ∉ stopBases)
    (hacyc : collect_all_fields content P [T] = collect_all_fields content P [])
    (hchain : ∃ pre, get_inheritance_chain T
      (build_template_hierarchy content (parse_all_templates content)) =
      pre ++ [P, T]) :
    collect_all_fields content T [] =
      collect_all_fields content P [] ++ info.fields := by
  rw [collect_parse_some (by simp) hparse, hbase]
  show (if P ∈ stopBases then info.fields
    else collect_all_fields content P [T] ++ info.fields) = _
  rw [if_neg hstop, hacyc]

/-- A two-level template chain used as the C2 witness input. -/
def dumpAB : List String :=
  ["public class ATemplate : ScriptableObject // t",
   "\x7b",
   "\tpublic int a; // 0x10",
   "\x7d",
   "public class BTemplate : ATemplate // t",
   "\x7b",
   "\tpublic int b; // 0x20",
   "\x7d"]

/-- C2 witness: the amended flattening equation at a concrete parent/child
pair. -/
theorem C2_amended_witness :
    collect_all_fields dumpAB "BTemplate" [] =
      collect_all_fields dumpAB "ATemplate" [] ++ [⟨"int", "b", "0x20"⟩] := by
  have hpA : parse_class_from_dump dumpAB "ATemplate" =
      some ⟨"ATemplate", some "ScriptableObject", false, [⟨"int", "a", "0x10"⟩]⟩ := by
    decide
  have hcA : ∀ (v : List String), collect_all_fields dumpAB "ATemplate" v =
      (if "ATemplate" ∈ v then [] else [⟨"int", "a", "0x10"⟩]) := by
    intro v
    by_cases hv : "ATemplate" ∈ v
    · rw [collect_visited hv, if_pos hv]
    · rw [collect_parse_some hv hpA, if_neg hv]
      show (if "ScriptableObject" ∈ stopBases then [(⟨"int", "a", "0x10"⟩ : RawField)]
        else collect_all_fields dumpAB "ScriptableObject" ("ATemplate" :: v) ++
          [⟨"int", "a", "0x10"⟩]) = _
      rw [if_pos (by decide)]
  refine C2_amended dumpAB "BTemplate" "ATemplate"
    ⟨"BTemplate", some "ATemplate", false, [⟨"int", "b", "0x20"⟩]⟩
    (by decide) rfl (by decide) ?_ ?_
  · rw [hcA ["BTemplate"], hcA []]
    decide
  · refine ⟨["ScriptableObject"], ?_⟩
    have h1 : parse_all_templates dumpAB = ["ATemplate", "BTemplate"] := by decide
    have h2 : build_template_hierarchy dumpAB ["ATemplate", "BTemplate"] =
        [("ATemplate", "ScriptableObject"), ("BTemplate", "ATemplate")] := by decide
    rw [h1, h2]
    unfold get_inheritance_chain
    rw [chainLoop_some (by decide : hGet [("ATemplate", "ScriptableObject"),
        ("BTemplate", "ATemplate")] "BTemplate" = some "ATemplate"),
      if_neg (by decide), if_neg (by decide)]
    rw [chainLoop_some (by decide : hGet [("ATemplate", "ScriptableObject"),
        ("BTemplate", "ATemplate")] "ATemplate" = some "ScriptableObject"),
      if_neg (by decide), if_neg (by decide)]
    rw [chainLoop_none (by decide : hGet [("ATemplate", "ScriptableObject"),
        ("BTemplate", "ATemplate")] "ScriptableObject" = none)]
    decide

/-! ## Claim C10 -/

theorem parse_all_structs_noopen {l : String} {ls : List String} {name : String}
    (h : structNameInLine l.data = some name)
    (ho : dropAfterFirst (fun x => x = "\x7b") ls = none) :
    parse_all_structs (l :: ls) = parse_all_structs ls := by
  rw [parse_all_structs.eq_def]
  simp only [h]
  split
  · rfl
  · next ao ho2 => rw [ho] at ho2; cases ho2

theorem parse_all_structs_noclose {l : String} {ls afterOpen : List String}
    {name : String} (h : structNameInLine l.data = some name)
    (ho : dropAfterFirst (fun x => x = "\x7b") ls = some afterOpen)
    (hc : splitAtClose afterOpen = none) :
    parse_all_structs (l :: ls) = parse_all_structs ls := by
  rw [parse_all_structs.eq_def]
  simp only [h]
  split
  · rfl
  · next ao ho2 =>
    rw [ho] at ho2
    cases ho2
    split
    · rfl
    · next b2 r2 hc2 => rw [hc] at hc2; cases hc2

theorem parse_all_structs_size_aux : ∀ (N : Nat) (content : List String),
    content.length ≤ N → ∀ (nm : String) (si : StructInfo),
    (nm, si) ∈ parse_all_structs content →
    si.fields ≠ [] ∧ ∃ lf, si.fields.getLast? = some lf ∧
      si.size_bytes = hexVal lf.offset + 4 := by
  intro N
  induction N with
  | zero =>
    intro content hlen nm si hmem
    have hc : content = [] := List.length_eq_zero.mp (Nat.le_zero.mp hlen)
    rw [hc, parse_all_structs_nil] at hmem
    cases hmem
  | succ n ih =>
    intro content hlen nm si hmem
    cases content with
    | nil => rw [parse_all_structs_nil] at hmem; cases hmem
    | cons l ls =>
      have hlen2 : ls.length ≤ n := by
        simp only [List.length_cons] at hlen
        omega
      cases hsn : structNameInLine l.data with
      | none =>
        rw [parse_all_structs_noname hsn] at hmem
        exact ih ls hlen2 nm si hmem
      | some name =>
        cases ho : dropAfterFirst (fun x => x = "\x7b") ls with
        | none =>
          rw [parse_all_structs_noopen hsn ho] at hmem
          exact ih ls hlen2 nm si hmem
        | some ao =>
          cases hc : splitAtClose ao with
          | none =>
            rw [parse_all_structs_noclose hsn ho hc] at hmem
            exact ih ls hlen2 nm si hmem
          | some pr =>
            obtain ⟨body, rest⟩ := pr
            rw [parse_all_structs_name hsn ho hc] at hmem
            rcases List.mem_append.mp hmem with hm1 | hm2
            · cases hgl : (structFieldsOf body).getLast? with
              | none => rw [hgl] at hm1; cases hm1
              | some lastF =>
                rw [hgl] at hm1
                have heq := List.mem_singleton.mp hm1
                have hsi : si = ⟨hexVal lastF.offset + 4, structFieldsOf body⟩ :=
                  congrArg Prod.snd heq
                have hfields : si.fields = structFieldsOf body := by rw [hsi]
                have hsize : si.size_bytes = hexVal lastF.offset + 4 := by rw [hsi]
                refine ⟨?_, lastF, by rw [hfields]; exact hgl, hsize⟩
                intro hnil
                rw [hfields] at hnil
                rw [hnil] at hgl
                simp at hgl
            · have hao : ao.length < ls.length := dropAfterFirst_length ho
              have hrest : rest.length < ao.length := by
                have h2 := splitAtClose_length hc
                exact h2
              exact ih rest (by omega) nm si hm2

theorem filter_key_eq_nil {α : Type} (l : List (String × α)) (S : String)
    (h : S ∉ l.map (fun p => p.1)) : l.filter (fun p => p.1 = S) = [] := by
  refine List.filter_eq_nil_iff.mpr ?_
  intro p hp
  simp only [decide_eq_true_eq]
  intro he
  exact h (List.mem_map.mpr ⟨p, hp, he⟩)

theorem alookLast_middle {α : Type} (pre post : List (String × α)) (S : String)
    (x : α) (hpre : S ∉ pre.map (fun p => p.1))
    (hpost : S ∉ post.map (fun p => p.1)) :
    alookLast (pre ++ (S, x) :: post) S = some x := by
  unfold alookLast
  rw [List.filter_append, List.filter_cons]
  rw [filter_key_eq_nil pre S hpre, filter_key_eq_nil post S hpost]
  simp

theorem alookLast_middle_ne {α : Type} (pre post : List (String × α)) (S n : String)
    (a b : α) (hne : n ≠ S) :
    alookLast (pre ++ (S, a) :: post) n = alookLast (pre ++ (S, b) :: post) n := by
  unfold alookLast
  rw [List.filter_append, List.filter_append, List.filter_cons, List.filter_cons]
  rw [if_neg (by simpa using fun e => hne e.symm),
    if_neg (by simpa using fun e => hne e.symm)]

/-- C10: every struct recorded in the schema has a nonempty parsed field
list (field-less struct bodies are omitted entirely) and a size estimate
equal to its last field's offset value plus 4; consequently two builds
whose parses differ by one field appended after (beyond) the previous last
field produce different `size_bytes`, and the differ emits its critical
struct-size record for that struct. -/
theorem C10_struct_size_and_diff :
    (∀ (content : List String) (nm : String) (si : StructInfo),
        (nm, si) ∈ parse_all_structs content →
        si.fields ≠ [] ∧ ∃ lf, si.fields.getLast? = some lf ∧
          si.size_bytes = hexVal lf.offset + 4) ∧
    (∀ (pre post : List (String × StructInfo)) (S : String) (s1 s2 : StructInfo)
        (g lf : RawField),
        s1.fields.getLast? = some lf →
        s2.fields = s1.fields ++ [g] →
        s1.size_bytes = hexVal lf.offset + 4 →
        s2.size_bytes = hexVal g.offset + 4 →
        hexVal lf.offset < hexVal g.offset →
        (((pre ++ (S, s1) :: post).map (fun p => p.1)).Nodup) →
        ("CRIT", S ++ ": size changed " ++ showOptNat (some s1.size_bytes) ++
            " -> " ++ showOptNat (some s2.size_bytes)) ∈
          diff_structs (pre ++ (S, s1) :: post) (pre ++ (S, s2) :: post)) := by
  constructor
  · intro content nm si hmem
    exact parse_all_structs_size_aux content.length content le_rfl nm si hmem
  · intro pre post S s1 s2 g lf hlast happ hs1 hs2 hlt hnd
    have hkeys1 : (pre ++ (S, s1) :: post).map (fun p => p.1) =
        pre.map (fun p => p.1) ++ S :: post.map (fun p => p.1) := by
      simp
    have hkeys2 : (pre ++ (S, s2) :: post).map (fun p => p.1) =
        pre.map (fun p => p.1) ++ S :: post.map (fun p => p.1) := by
      simp
    rw [hkeys1] at hnd
    have hSpre : S ∉ pre.map (fun p => p.1) := (nodup_middle_not_mem hnd).1
    have hSpost : S ∉ post.map (fun p => p.1) := (nodup_middle_not_mem hnd).2
    have hget1 : alookLast (pre ++ (S, s1) :: post) S = some s1 :=
      alookLast_middle pre post S s1 hSpre hSpost
    have hget2 : alookLast (pre ++ (S, s2) :: post) S = some s2 :=
      alookLast_middle pre post S s2 hSpre hSpost
    unfold diff_structs
    simp only [hkeys1, hkeys2]
    apply List.mem_append_right
    have hSks : S ∈ pre.map (fun p => p.1) ++ S :: post.map (fun p => p.1) :=
      List.mem_append_right _ (List.mem_cons_self _ _)
    refine List.mem_filterMap.mpr ⟨S, ?_, ?_⟩
    · rw [sortStrings_mem]
      refine List.mem_filter.mpr ⟨?_, ?_⟩
      · exact (dedupFirst_mem_iff S _).mpr hSks
      · simp only [decide_eq_true_eq]
        exact (dedupFirst_mem_iff S _).mpr hSks
    · rw [hget1, hget2]
      simp only [Option.map_some']
      have hne : (some s1.size_bytes : Option Nat) ≠ some s2.size_bytes := by
        simp only [ne_eq, Option.some.injEq]
        rw [hs1, hs2]
        omega
      rw [if_pos hne]

/-- Content for the C10 witness: one struct with two fields, and the same
struct with a third field appended after the last one. -/
def dumpS1 : List String :=
  ["public struct SV // x",
   "\x7b",
   "\tpublic float m; // 0x0",
   "\tpublic float n; // 0x4",
   "\x7d"]

def dumpS2 : List String :=
  ["public struct SV // x",
   "\x7b",
   "\tpublic float m; // 0x0",
   "\tpublic float n; // 0x4",
   "\tpublic float o; // 0x8",
   "\x7d"]

/-- C10 witness: the size formula at a concrete parse and the critical
diff record for the appended-field build pair. -/
theorem C10_witness :
    parse_all_structs dumpS1 =
      [("SV", ⟨8, [⟨"float", "m", "0x0"⟩, ⟨"float", "n", "0x4"⟩]⟩)] ∧
    (⟨8, [⟨"float", "m", "0x0"⟩, ⟨"float", "n", "0x4"⟩]⟩ : StructInfo).fields ≠ [] ∧
    ("CRIT", "SV" ++ ": size changed " ++ showOptNat (some 8) ++ " -> " ++
        showOptNat (some 12)) ∈
      diff_structs [("SV", ⟨8, [⟨"float", "m", "0x0"⟩, ⟨"float", "n", "0x4"⟩]⟩)]
        [("SV", ⟨12, [⟨"float", "m", "0x0"⟩, ⟨"float", "n", "0x4"⟩,
          ⟨"float", "o", "0x8"⟩]⟩)] := by
  have hp1 : parse_all_structs dumpS1 =
      [("SV", ⟨8, [⟨"float", "m", "0x0"⟩, ⟨"float", "n", "0x4"⟩]⟩)] := by
    rw [show dumpS1 = "public struct SV // x" ::
      ["\x7b", "\tpublic float m; // 0x0", "\tpublic float n; // 0x4", "\x7d"] from rfl]
    rw [@parse_all_structs_name "public struct SV // x"
      ["\x7b", "\tpublic float m; // 0x0", "\tpublic float n; // 0x4", "\x7d"]
      ["\tpublic float m; // 0x0", "\tpublic float n; // 0x4", "\x7d"]
      ["\tpublic float m; // 0x0", "\tpublic float n; // 0x4"] [] "SV"
      (by decide) (by decide) (by decide)]
    rw [parse_all_structs_nil]
    decide
  refine ⟨hp1, ?_, ?_⟩
  · have := (C10_struct_size_and_diff.1 dumpS1 "SV"
      ⟨8, [⟨"float", "m", "0x0"⟩, ⟨"float", "n", "0x4"⟩]⟩ (by rw [hp1]; decide))
    exact this.1
  · exact C10_struct_size_and_diff.2 [] [] "SV"
      ⟨8, [⟨"float", "m", "0x0"⟩, ⟨"float", "n", "0x4"⟩]⟩
      ⟨12, [⟨"float", "m", "0x0"⟩, ⟨"float", "n", "0x4"⟩, ⟨"float", "o", "0x8"⟩]⟩
      ⟨"float", "o", "0x8"⟩ ⟨"float", "n", "0x4"⟩
      (by decide) (by decide) (by decide) (by decide) (by decide) (by decide)

/-! ## Claim C8 -/

/-- C8: with `N` non-abstract templates, `K` of which have a data file, the
coverage check reports `K/N` in its headline record and its verdict is PASS
iff `K = N`, WARN iff `7/10 ≤ K/N` (and `K < N`, hence `K/N < 1`), FAIL
otherwise; abstract templates are excluded from `expected`/`found` and
counted separately.  Python's float percentage is modelled by exact
rational arithmetic. -/
theorem C8_coverage_thresholds (templates : List (String × VTemplate))
    (files : List String) (expected found : List String) (K N A : Nat)
    (hexp : expected = (templates.filter (fun p => !p.2.is_abstract)).map (fun p => p.1))
    (hfound : found = expected.filter (fun t => t ∈ files))
    (hK : K = found.length) (hN : N = expected.length)
    (hA : A = (templates.filter (fun p => p.2.is_abstract)).length) :
    (check_template_coverage templates files).2 = found ∧
    (check_template_coverage templates files).1.head? = some
      ((if K = N then "PASS"
        else if (7 : ℚ)/10 ≤ (K : ℚ)/(N : ℚ) then "WARN" else "FAIL"),
       toString K ++ "/" ++ toString N ++ " types have output (" ++ toString A ++
         " abstract, expected no output)") ∧
    K ≤ N := by
  subst hexp hfound hK hN hA
  simp only [check_template_coverage]
  set expected := (templates.filter (fun p => !p.2.is_abstract)).map (fun p => p.1)
    with hexp
  set found := expected.filter (fun t => t ∈ files) with hfound
  have hmiss : expected.filter (fun t => ¬ t ∈ found) =
      expected.filter (fun t => ¬ t ∈ files) := by
    refine List.filter_congr ?_
    intro x hx
    simp [hfound, List.mem_filter, hx]
  have hsplit : (expected.filter (fun t => t ∈ files)).length +
      (expected.filter (fun t => ¬ t ∈ files)).length = expected.length := by
    simpa using length_filter_split expected (fun t => t ∈ files)
  have hKN : found.length ≤ expected.length := by
    rw [hfound]
    exact List.length_filter_le _ _
  refine ⟨trivial, ?_, hKN⟩
  simp only [List.head?_cons, Option.some.injEq, Prod.mk.injEq]
  refine ⟨?_, trivial⟩
  by_cases hpass : found.length = expected.length
  · have hmnil : expected.filter (fun t => ¬ t ∈ found) = [] := by
      rw [hmiss]
      have : (expected.filter (fun t => ¬ t ∈ files)).length = 0 := by
        have h2 : (expected.filter (fun t => t ∈ files)).length = found.length := by
          rw [hfound]
        omega
      exact List.length_eq_zero.mp this
    rw [if_pos (by rw [hmnil]; rfl), if_pos hpass]
  · have hmne : ¬ (expected.filter (fun t => ¬ t ∈ found)).isEmpty = true := by
      rw [hmiss]
      intro hempty
      have : (expected.filter (fun t => ¬ t ∈ files)).length = 0 := by
        rw [List.isEmpty_iff.mp hempty]
        rfl
      have h2 : (expected.filter (fun t => t ∈ files)).length = found.length := by
        rw [hfound]
      omega
    rw [if_neg hmne, if_neg hpass]
    have hNpos : 0 < expected.length := by
      by_contra h0
      push_neg at h0
      have he : expected.length = 0 := by omega
      have hf : found.length = 0 := by
        have h2 := hKN
        omega
      exact hpass (by omega)
    have hene : expected.isEmpty = false := by
      have hne2 : expected ≠ [] := by
        intro h
        rw [h] at hNpos
        simp at hNpos
      simpa [List.isEmpty_iff] using hne2
    rw [hene]
    simp only [Bool.false_eq_true, if_false]
    have hiff : ((70 : ℚ) ≤ (found.length : ℚ) / (expected.length : ℚ) * 100) ↔
        ((7 : ℚ)/10 ≤ (found.length : ℚ)/(expected.length : ℚ)) := by
      constructor <;> intro h <;> nlinarith [h]
    by_cases hw : (7 : ℚ)/10 ≤ (found.length : ℚ)/(expected.length : ℚ)
    · rw [if_pos (hiff.mpr hw), if_pos hw]
    · rw [if_neg (fun hc => hw (hiff.mp hc)), if_neg hw]

/-- C8 witness: concrete coverage report with two of three concrete
templates present (the abstract one excluded). -/
theorem C8_witness :
    (check_template_coverage
      [("A", ⟨false, []⟩), ("B", ⟨true, []⟩), ("C", ⟨false, []⟩), ("D", ⟨false, []⟩)]
      ["A", "C"]).2 = ["A", "C"] ∧
    (check_template_coverage
      [("A", ⟨false, []⟩), ("B", ⟨true, []⟩), ("C", ⟨false, []⟩), ("D", ⟨false, []⟩)]
      ["A", "C"]).1.head? = some
      ((if (2 : Nat) = 3 then "PASS"
        else if (7 : ℚ)/10 ≤ (2 : ℚ)/(3 : ℚ) then "WARN" else "FAIL"),
       toString (2 : Nat) ++ "/" ++ toString (3 : Nat) ++ " types have output (" ++
         toString (1 : Nat) ++ " abstract, expected no output)") ∧
    (2 : Nat) ≤ 3 := by
  have h := C8_coverage_thresholds
    [("A", ⟨false, []⟩), ("B", ⟨true, []⟩), ("C", ⟨false, []⟩), ("D", ⟨false, []⟩)]
    ["A", "C"] ["A", "C", "D"] ["A", "C"] 2 3 1 (by decide) (by decide)
    (by decide) (by decide) (by decide)
  exact h

/-! ## Claim C9 -/

theorem instNameRecs_congr {readF readF' : String → Option JVal} {t : String}
    (h : readF t = readF' t) : instNameRecs readF t = instNameRecs readF' t := by
  unfold instNameRecs
  rw [h]

theorem typeValRecs_congr {tmpls : List (String × VTemplate)}
    {readF readF' : String → Option JVal} {t : String}
    (h : readF t = readF' t) :
    typeValRecs tmpls readF t = typeValRecs tmpls readF' t := by
  unfold typeValRecs
  rw [h]

theorem typeValRecs_malformed {tmpls : List (String × VTemplate)}
    {readF : String → Option JVal} {t : String} (h : readF t = none) :
    typeValRecs tmpls readF t = [] := by
  unfold typeValRecs
  rw [h]
  cases alookLast tmpls t <;> rfl

/-- C9: a template whose JSON file is malformed (`readF t0 = none` models a
failed `json.load`) gets exactly one FAIL record scoped to itself in the
instance-name check, and every other template's checks are computed exactly
as they would be under any reader agreeing outside `t0` — the per-template
records depend only on that template's own file, so the run continues and
(all embedded checks being total functions) never aborts. -/
theorem C9_malformed_is_scoped (readF readF' : String → Option JVal)
    (tmpls : List (String × VTemplate)) (found : List String) (t0 : String)
    (hmal : readF t0 = none)
    (hagree : ∀ t, t ≠ t0 → readF t = readF' t) :
    instNameRecs readF t0 = [("FAIL", t0 ++ ": Could not read JSON")] ∧
    check_instance_names readF found =
      (sortStrings found).flatMap (fun t =>
        if t = t0 then [("FAIL", t0 ++ ": Could not read JSON")]
        else instNameRecs readF' t) ∧
    check_type_validation tmpls readF found =
      (sortStrings found).flatMap (fun t =>
        if t = t0 then [] else typeValRecs tmpls readF' t) := by
  have hfail : instNameRecs readF t0 = [("FAIL", t0 ++ ": Could not read JSON")] := by
    unfold instNameRecs
    rw [hmal]
  refine ⟨hfail, ?_, ?_⟩
  · unfold check_instance_names
    refine flatMap_congr _ _ _ ?_
    intro t _
    by_cases ht : t = t0
    · subst ht
      rw [if_pos rfl]
      exact hfail
    · rw [if_neg ht]
      exact instNameRecs_congr (hagree t ht)
  · unfold check_type_validation
    refine flatMap_congr _ _ _ ?_
    intro t _
    by_cases ht : t = t0
    · subst ht
      rw [if_pos rfl]
      exact typeValRecs_malformed hmal
    · rw [if_neg ht]
      exact typeValRecs_congr (hagree t ht)

/-- C9 witness: concrete reader with one malformed file among two. -/
theorem C9_witness :
    instNameRecs (fun t => if t = "B" then none
        else some (.jarr [.jobj [("name", .jstr "x")]])) "B" =
      [("FAIL", "B" ++ ": Could not read JSON")] ∧
    check_instance_names (fun t => if t = "B" then none
        else some (.jarr [.jobj [("name", .jstr "x")]])) ["A", "B"] =
      (sortStrings ["A", "B"]).flatMap (fun t =>
        if t = "B" then [("FAIL", "B" ++ ": Could not read JSON")]
        else instNameRecs (fun t => if t = "B" then none
          else some (.jarr [.jobj [("name", .jstr "x")]])) t) ∧
    check_type_validation [("A", ⟨false, [⟨"hp", "int", "primitive"⟩]⟩)]
      (fun t => if t = "B" then none
        else some (.jarr [.jobj [("name", .jstr "x")]])) ["A", "B"] =
      (sortStrings ["A", "B"]).flatMap (fun t =>
        if t = "B" then []
        else typeValRecs [("A", ⟨false, [⟨"hp", "int", "primitive"⟩]⟩)]
          (fun t => if t = "B" then none
            else some (.jarr [.jobj [("name", .jstr "x")]])) t) :=
  C9_malformed_is_scoped
    (fun t => if t = "B" then none else some (.jarr [.jobj [("name", .jstr "x")]]))
    (fun t => if t = "B" then none else some (.jarr [.jobj [("name", .jstr "x")]]))
    [("A", ⟨false, [⟨"hp", "int", "primitive"⟩]⟩)] ["A", "B"] "B"
    rfl (fun _ _ => rfl)

/-! ## Claim C1: self-diff lemmas -/

theorem diffOneEnum_refl (n : String) (v : List (String × Int)) :
    diffOneEnum n v v = [] := by
  simp only [diffOneEnum]
  rw [filter_not_mem_self]
  have hch : ((dedupFirst (v.map (fun p => p.1))).filter
      (fun k => k ∈ dedupFirst (v.map (fun p => p.1)))).filter
      (fun k => alookLast v k ≠ alookLast v k) = [] := by
    refine List.filter_eq_nil_iff.mpr ?_
    intro a _
    simp
  rw [hch]
  rw [show sortStrings [] = [] from rfl]
  rw [if_pos (by decide)]

theorem diff_enums_refl (e : List (String × DEnum)) : diff_enums e e = [] := by
  simp only [diff_enums]
  rw [filter_not_mem_self]
  rw [show sortStrings [] = [] from rfl]
  rw [if_pos (by decide)]
  simp only [List.nil_append]
  exact flatMap_nil_of _ _ (fun n _ => diffOneEnum_refl n _)

theorem diff_structs_refl (s : List (String × StructInfo)) : diff_structs s s = [] := by
  simp only [diff_structs]
  rw [filter_not_mem_self]
  rw [show sortStrings [] = [] from rfl]
  rw [if_pos (by decide)]
  simp only [List.nil_append]
  refine List.filterMap_eq_nil_iff.mpr ?_
  intro a _
  rw [if_neg (by simp)]

theorem diffOneTemplate_refl (n : String) (t : DTemplate) :
    diffOneTemplate n t t = ([], 0) := by
  simp only [diffOneTemplate]
  rw [filter_not_mem_self]
  rw [show sortStrings [] = [] from rfl]
  have hoc : (sortStrings ((fieldKeys t.fields).filter
      (fun k => k ∈ fieldKeys t.fields))).filterMap (fun k =>
      if (fieldGet t.fields k).offset ≠ (fieldGet t.fields k).offset
      then some (k, (fieldGet t.fields k).offset, (fieldGet t.fields k).offset)
      else none) = [] := by
    refine List.filterMap_eq_nil_iff.mpr ?_
    intro a _
    rw [if_neg (by simp)]
  have htc : (sortStrings ((fieldKeys t.fields).filter
      (fun k => k ∈ fieldKeys t.fields))).filterMap (fun k =>
      if (fieldGet t.fields k).ftype ≠ (fieldGet t.fields k).ftype
      then some (k, (fieldGet t.fields k).ftype, (fieldGet t.fields k).ftype)
      else none) = [] := by
    refine List.filterMap_eq_nil_iff.mpr ?_
    intro a _
    rw [if_neg (by simp)]
  rw [hoc, htc]
  rw [if_pos (by decide)]
  rfl

/-- The field dict of a template with `Nodup` field names maps each member
field's name to that field. -/
theorem filter_name_singleton (F : List DField) (f : DField)
    (hnd : (F.map (fun g => g.name)).Nodup) (hf : f ∈ F) :
    F.filter (fun g => g.name = f.name) = [f] := by
  induction F with
  | nil => cases hf
  | cons g gs ih =>
    simp only [List.map_cons, List.nodup_cons] at hnd
    obtain ⟨hgnot, hndgs⟩ := hnd
    rcases List.mem_cons.mp hf with hfg | hfgs
    · rw [List.filter_cons, if_pos (by simp [hfg])]
      have hrest : gs.filter (fun g2 => g2.name = f.name) = [] := by
        refine List.filter_eq_nil_iff.mpr ?_
        intro a ha hc
        refine hgnot ?_
        have han : a.name = f.name := by simpa using hc
        rw [← hfg, ← han]
        exact List.mem_map_of_mem _ ha
      rw [hrest, ← hfg]
    · have hgne : g.name ≠ f.name := by
        intro he
        exact hgnot (he ▸ List.mem_map_of_mem _ hfgs)
      rw [List.filter_cons, if_neg (by simpa using hgne)]
      exact ih hndgs hfgs

theorem fieldGet_of_mem_nodup (F : List DField) (f : DField)
    (hnd : (F.map (fun g => g.name)).Nodup) (hf : f ∈ F) :
    fieldGet F f.name = f := by
  unfold fieldGet
  rw [filter_name_singleton F f hnd hf]
  rfl

/-- Looking a member field's name up in the dict of a name-preserving map of
the field list yields the image of that field. -/
theorem fieldGet_map_of_mem_nodup (F : List DField) (f : DField)
    (upd : DField → DField) (hname : ∀ g, (upd g).name = g.name)
    (hnd : (F.map (fun g => g.name)).Nodup) (hf : f ∈ F) :
    fieldGet (F.map upd) f.name = upd f := by
  unfold fieldGet
  rw [List.filter_map]
  have h1 : F.filter ((fun g => decide (g.name = f.name)) ∘ upd) = [f] := by
    rw [← filter_name_singleton F f hnd hf]
    apply List.filter_congr
    intro a _
    simp only [Function.comp_apply, hname a]
  rw [h1]
  rfl

/-- Offset rewrite of the single field named `fn`, keeping every other field
unchanged: the new-schema template of the C1 scenario. -/
def updOffset (fn newOff : String) (g : DField) : DField :=
  if g.name = fn then ⟨g.name, g.ftype, newOff⟩ else g

theorem updOffset_name (fn newOff : String) (g : DField) :
    (updOffset fn newOff g).name = g.name := by
  unfold updOffset
  split <;> rfl

theorem updOffset_ftype (fn newOff : String) (g : DField) :
    (updOffset fn newOff g).ftype = g.ftype := by
  unfold updOffset
  split <;> rfl

/-- One common template whose single field `fn` changed offset produces
exactly the CHG header plus the one OFFSET CRIT record, and offset-change
count 1. -/
theorem diffOneTemplate_update (T fn newOff : String) (tOld tNew : DTemplate)
    (fOld : DField)
    (hfnd : (tOld.fields.map (fun g => g.name)).Nodup)
    (hmem : fOld ∈ tOld.fields) (hfname : fOld.name = fn)
    (hoffne : fOld.offset ≠ newOff)
    (hnewf : tNew.fields = tOld.fields.map (updOffset fn newOff)) :
    diffOneTemplate T tOld tNew =
      ([("CHG", T ++ ":"), offsetCritRec fn fOld.offset newOff], 1) := by
  have hkeysnew : fieldKeys tNew.fields = fieldKeys tOld.fields := by
    unfold fieldKeys
    rw [hnewf, List.map_map]
    have hfun : ((fun f : DField => f.name) ∘ updOffset fn newOff)
        = (fun f : DField => f.name) := by
      funext g
      exact updOffset_name fn newOff g
    rw [hfun]
  have hfn_keys : fn ∈ fieldKeys tOld.fields := by
    unfold fieldKeys
    rw [dedupFirst_mem_iff]
    rw [← hfname]
    exact List.mem_map_of_mem _ hmem
  have hnodc : (sortStrings (fieldKeys tOld.fields)).Nodup :=
    sortStrings_nodup (dedupFirst_nodup _)
  have hfnmemc : fn ∈ sortStrings (fieldKeys tOld.fields) :=
    (sortStrings_mem fn _).mpr hfn_keys
  have hgetpair : ∀ k ∈ sortStrings (fieldKeys tOld.fields), ∃ u ∈ tOld.fields,
      u.name = k ∧ fieldGet tOld.fields k = u ∧
      fieldGet tNew.fields k = updOffset fn newOff u := by
    intro k hk
    rw [sortStrings_mem] at hk
    unfold fieldKeys at hk
    rw [dedupFirst_mem_iff] at hk
    obtain ⟨u, hu, huk⟩ := List.mem_map.mp hk
    refine ⟨u, hu, huk, ?_, ?_⟩
    · rw [← huk]
      exact fieldGet_of_mem_nodup _ u hfnd hu
    · rw [hnewf, ← huk]
      exact fieldGet_map_of_mem_nodup _ u _ (updOffset_name fn newOff) hfnd hu
  have hpick : ∀ k ∈ sortStrings (fieldKeys tOld.fields),
      (if (fieldGet tOld.fields k).offset ≠ (fieldGet tNew.fields k).offset
       then some (k, (fieldGet tOld.fields k).offset, (fieldGet tNew.fields k).offset)
       else none)
      = if k = fn then some (fn, fOld.offset, newOff) else none := by
    intro k hk
    obtain ⟨u, hu, huk, hgo, hgn⟩ := hgetpair k hk
    by_cases hkfn : k = fn
    · have hgo2 : fieldGet tOld.fields fn = u := by
        rw [← hkfn]
        exact hgo
      have h1 : fieldGet tOld.fields fn = fOld := by
        rw [← hfname]
        exact fieldGet_of_mem_nodup _ fOld hfnd hmem
      have hufOld : u = fOld := hgo2.symm.trans h1
      have hune2 : u.name = fn := by
        rw [huk]
        exact hkfn
      have hupd : updOffset fn newOff u = ⟨u.name, u.ftype, newOff⟩ := by
        unfold updOffset
        rw [if_pos hune2]
      rw [hgo, hgn, hupd, hufOld, hkfn]
      show (if fOld.offset ≠ newOff then some (fn, fOld.offset, newOff) else none)
        = if fn = fn then some (fn, fOld.offset, newOff) else none
      rw [if_pos hoffne, if_pos rfl]
    · have hune : u.name ≠ fn := by
        rw [huk]
        exact hkfn
      have hupd : updOffset fn newOff u = u := by
        unfold updOffset
        rw [if_neg hune]
      rw [hgo, hgn, hupd]
      rw [if_neg (by simp), if_neg hkfn]
  have hoc : (sortStrings (fieldKeys tOld.fields)).filterMap (fun k =>
      if (fieldGet tOld.fields k).offset ≠ (fieldGet tNew.fields k).offset
      then some (k, (fieldGet tOld.fields k).offset, (fieldGet tNew.fields k).offset)
      else none) = [(fn, fOld.offset, newOff)] :=
    filterMap_ite_single _ _ fn _ hpick hfnmemc hnodc
  have htc : (sortStrings (fieldKeys tOld.fields)).filterMap (fun k =>
      if (fieldGet tOld.fields k).ftype ≠ (fieldGet tNew.fields k).ftype
      then some (k, (fieldGet tOld.fields k).ftype, (fieldGet tNew.fields k).ftype)
      else none) = [] := by
    refine List.filterMap_eq_nil_iff.mpr ?_
    intro k hk
    obtain ⟨u, hu, huk, hgo, hgn⟩ := hgetpair k hk
    rw [hgo, hgn]
    rw [if_neg (by simp [updOffset_ftype])]
  simp only [diffOneTemplate]
  rw [hkeysnew]
  rw [filter_not_mem_self]
  rw [show sortStrings [] = [] from rfl]
  rw [filter_mem_self]
  rw [hoc, htc]
  rw [if_neg (by simp)]
  simp only [List.map_nil, List.map_cons, List.nil_append, List.append_nil,
    List.length_cons, List.length_nil]
  rfl

theorem tmplGet_middle (pre post : List (String × DTemplate)) (T : String)
    (x : DTemplate) (hpre : T ∉ pre.map (fun p => p.1))
    (hpost : T ∉ post.map (fun p => p.1)) :
    tmplGet (pre ++ (T, x) :: post) T = x := by
  unfold tmplGet
  rw [alookLast_middle pre post T x hpre hpost]

theorem tmplGet_middle_ne (pre post : List (String × DTemplate)) (T n : String)
    (a b : DTemplate) (hne : n ≠ T) :
    tmplGet (pre ++ (T, a) :: post) n = tmplGet (pre ++ (T, b) :: post) n := by
  unfold tmplGet
  rw [alookLast_middle_ne pre post T n a b hne]

theorem flatMap_map {α β γ : Type} (g : α → β) (f : β → List γ) (l : List α) :
    (l.map g).flatMap f = l.flatMap (fun x => f (g x)) := by
  induction l with
  | nil => rfl
  | cons x xs ih => simp only [List.map_cons, List.flatMap_cons, ih]

theorem head_data_append (a b : String) (c : Char)
    (h : a.data.head? = some c) : (a ++ b).data.head? = some c := by
  rw [String.data_append]
  cases ha : a.data with
  | nil => rw [ha] at h; cases h
  | cons x xs =>
    rw [ha] at h
    simpa using h

theorem anyCrit_cons_crit (msg : String) (l : List (String × String)) :
    anyCrit (("CRIT", msg) :: l) = true := by
  unfold anyCrit
  rw [List.any_cons]
  rw [show (decide ((("CRIT", msg) : String × String).1 = "CRIT")) = true from rfl]
  rw [Bool.true_or]

/-- C1: between two schemas identical except that the one field `fn` of the
common template `T` carries a different offset string, `diff_templates`
emits exactly one CRIT record for that field, the differ exits with code 2,
and in general an exit code of 0 arises exactly when no critical record was
produced. -/
theorem C1_offset_change_single_crit_exit2
    (old new : DSchema) (pre post : List (String × DTemplate))
    (T fn newOff : String) (tOld tNew : DTemplate) (fOld : DField)
    (henums : new.enums = old.enums)
    (hstructs : new.structs = old.structs)
    (holdt : old.templates = pre ++ (T, tOld) :: post)
    (hnewt : new.templates = pre ++ (T, tNew) :: post)
    (hknd : ((pre ++ (T, tOld) :: post).map (fun p => p.1)).Nodup)
    (hfnd : (tOld.fields.map (fun g => g.name)).Nodup)
    (hmem : fOld ∈ tOld.fields)
    (hfname : fOld.name = fn)
    (hoffne : fOld.offset ≠ newOff)
    (hnewf : tNew.fields = tOld.fields.map (updOffset fn newOff)) :
    ((diff_templates old.templates new.templates).filter
        (fun r => r = offsetCritRec fn fOld.offset newOff)).length = 1 ∧
    diffExitCode old new = 2 ∧
    (∀ o2 n2 : DSchema, hasCriticalChanges o2 n2 = false → diffExitCode o2 n2 = 0) := by
  have hmapold : (pre ++ (T, tOld) :: post).map (fun p => p.1)
      = pre.map (fun p => p.1) ++ T :: post.map (fun p => p.1) := by simp
  have hmapnew : (pre ++ (T, tNew) :: post).map (fun p => p.1)
      = pre.map (fun p => p.1) ++ T :: post.map (fun p => p.1) := by simp
  have hksnd : (pre.map (fun p => p.1) ++ T :: post.map (fun p => p.1)).Nodup :=
    hmapold ▸ hknd
  have hTpre := nodup_middle_not_mem hksnd
  have hTks : T ∈ pre.map (fun p => p.1) ++ T :: post.map (fun p => p.1) :=
    List.mem_append_right _ (List.mem_cons_self T _)
  have hTsort : T ∈ sortStrings (pre.map (fun p => p.1) ++ T :: post.map (fun p => p.1)) :=
    (sortStrings_mem T _).mpr hTks
  have hsortnd :
      (sortStrings (pre.map (fun p => p.1) ++ T :: post.map (fun p => p.1))).Nodup :=
    sortStrings_nodup hksnd
  have hgT : diffOneTemplate T (tmplGet (pre ++ (T, tOld) :: post) T)
      (tmplGet (pre ++ (T, tNew) :: post) T)
      = ([("CHG", T ++ ":"), offsetCritRec fn fOld.offset newOff], 1) := by
    rw [tmplGet_middle pre post T tOld hTpre.1 hTpre.2,
      tmplGet_middle pre post T tNew hTpre.1 hTpre.2]
    exact diffOneTemplate_update T fn newOff tOld tNew fOld hfnd hmem hfname hoffne hnewf
  have hgne : ∀ b : String, b ≠ T →
      diffOneTemplate b (tmplGet (pre ++ (T, tOld) :: post) b)
        (tmplGet (pre ++ (T, tNew) :: post) b) = ([], 0) := by
    intro b hb
    rw [tmplGet_middle_ne pre post T b tOld tNew hb]
    exact diffOneTemplate_refl b _
  have hsum : (((sortStrings (pre.map (fun p => p.1) ++ T :: post.map (fun p => p.1))).map
      (fun n => diffOneTemplate n (tmplGet (pre ++ (T, tOld) :: post) n)
        (tmplGet (pre ++ (T, tNew) :: post) n))).map (fun p => p.2)).sum = 1 := by
    rw [List.map_map]
    refine map_sum_ite_single _ T 1 _ ?_ hTsort hsortnd
    intro b hb
    show (diffOneTemplate b (tmplGet (pre ++ (T, tOld) :: post) b)
      (tmplGet (pre ++ (T, tNew) :: post) b)).2 = if b = T then 1 else 0
    by_cases hbT : b = T
    · rw [hbT, hgT, if_pos rfl]
    · rw [hgne b hbT, if_neg hbT]
  have hdiff : diff_templates (pre ++ (T, tOld) :: post) (pre ++ (T, tNew) :: post)
      = ("CRIT", "*** " ++ toString (1 : Nat) ++
          " OFFSET CHANGES - extraction code must be regenerated ***")
        :: ((sortStrings (pre.map (fun p => p.1) ++ T :: post.map (fun p => p.1))).map
          (fun n => diffOneTemplate n (tmplGet (pre ++ (T, tOld) :: post) n)
            (tmplGet (pre ++ (T, tNew) :: post) n))).flatMap (fun p => p.1) := by
    simp only [diff_templates]
    rw [hmapold, hmapnew]
    rw [dedupFirst_eq_self_of_nodup hksnd]
    rw [filter_not_mem_self]
    rw [show sortStrings [] = [] from rfl]
    rw [filter_mem_self]
    rw [hsum]
    rw [if_pos (by decide)]
    rw [if_pos (by decide)]
    rw [if_pos (by decide)]
    simp only [List.nil_append]
  have hchg_ne : ("CHG", T ++ ":") ≠ offsetCritRec fn fOld.offset newOff := by
    intro h
    have h2 : ("CHG" : String) = "CRIT" :=
      congrArg (fun r : String × String => r.1) h
    exact absurd h2 (by decide)
  have hsumhead : ("*** " ++ toString (1 : Nat) ++
      " OFFSET CHANGES - extraction code must be regenerated ***").data.head? = some '*' :=
    head_data_append _ _ _ (head_data_append _ _ _ (by decide))
  have hcrithead : (offsetCritRec fn fOld.offset newOff).2.data.head? = some ' ' := by
    show ("  OFFSET " ++ fn ++ ": " ++ fOld.offset ++ " -> " ++ newOff).data.head? = some ' '
    exact head_data_append _ _ _ (head_data_append _ _ _ (head_data_append _ _ _
      (head_data_append _ _ _ (head_data_append _ _ _ (by decide)))))
  have hsum_ne : ("CRIT", "*** " ++ toString (1 : Nat) ++
      " OFFSET CHANGES - extraction code must be regenerated ***")
      ≠ offsetCritRec fn fOld.offset newOff := by
    intro h
    have h2 : ("*** " ++ toString (1 : Nat) ++
        " OFFSET CHANGES - extraction code must be regenerated ***").data.head?
        = (offsetCritRec fn fOld.offset newOff).2.data.head? :=
      congrArg (fun r : String × String => r.2.data.head?) h
    rw [hsumhead, hcrithead] at h2
    exact absurd h2 (by decide)
  have hfiltered : (((sortStrings (pre.map (fun p => p.1) ++ T :: post.map (fun p => p.1))).map
      (fun n => diffOneTemplate n (tmplGet (pre ++ (T, tOld) :: post) n)
        (tmplGet (pre ++ (T, tNew) :: post) n))).flatMap (fun p => p.1)).filter
      (fun r => r = offsetCritRec fn fOld.offset newOff)
      = [offsetCritRec fn fOld.offset newOff] := by
    rw [flatMap_map, filter_flatMap]
    refine flatMap_ite_single _ _ T _ ?_ hTsort hsortnd
    intro b hb
    show ((diffOneTemplate b (tmplGet (pre ++ (T, tOld) :: post) b)
        (tmplGet (pre ++ (T, tNew) :: post) b)).1).filter
        (fun r => r = offsetCritRec fn fOld.offset newOff)
      = if b = T then [offsetCritRec fn fOld.offset newOff] else []
    by_cases hbT : b = T
    · rw [hbT, hgT, if_pos rfl]
      show ([("CHG", T ++ ":"), offsetCritRec fn fOld.offset newOff]).filter
          (fun r => r = offsetCritRec fn fOld.offset newOff)
        = [offsetCritRec fn fOld.offset newOff]
      rw [List.filter_cons, if_neg (by simpa using hchg_ne), List.filter_cons,
        if_pos (by simp), List.filter_nil]
    · rw [hgne b hbT, if_neg hbT]
      rfl
  refine ⟨?_, ?_, ?_⟩
  · rw [holdt, hnewt, hdiff]
    rw [List.filter_cons, if_neg (by simpa using hsum_ne)]
    rw [hfiltered]
    rfl
  · have hcrit : hasCriticalChanges old new = true := by
      unfold hasCriticalChanges
      rw [holdt, hnewt, hdiff]
      rw [anyCrit_cons_crit]
      rw [Bool.or_true]
    unfold diffExitCode
    rw [hcrit]
    rfl
  · intro o2 n2 h
    unfold diffExitCode
    rw [h]
    rfl

/-- C1 witness: a concrete schema pair whose only difference is the offset of
field `hp` of template `UnitTemplate` (`0x10` to `0x14`). -/
theorem C1_witness :
    ((diff_templates
        ((⟨[], [], [("UnitTemplate", ⟨[⟨"hp", "int", "0x10"⟩]⟩)]⟩ : DSchema)).templates
        ((⟨[], [], [("UnitTemplate", ⟨[⟨"hp", "int", "0x14"⟩]⟩)]⟩ : DSchema)).templates).filter
      (fun r => r = offsetCritRec "hp" "0x10" "0x14")).length = 1 ∧
    diffExitCode ⟨[], [], [("UnitTemplate", ⟨[⟨"hp", "int", "0x10"⟩]⟩)]⟩
      ⟨[], [], [("UnitTemplate", ⟨[⟨"hp", "int", "0x14"⟩]⟩)]⟩ = 2 ∧
    (∀ o2 n2 : DSchema, hasCriticalChanges o2 n2 = false → diffExitCode o2 n2 = 0) :=
  C1_offset_change_single_crit_exit2
    ⟨[], [], [("UnitTemplate", ⟨[⟨"hp", "int", "0x10"⟩]⟩)]⟩
    ⟨[], [], [("UnitTemplate", ⟨[⟨"hp", "int", "0x14"⟩]⟩)]⟩
    [] [] "UnitTemplate" "hp" "0x14" ⟨[⟨"hp", "int", "0x10"⟩]⟩ ⟨[⟨"hp", "int", "0x14"⟩]⟩
    ⟨"hp", "int", "0x10"⟩
    rfl rfl rfl rfl (by decide) (by decide) (List.mem_cons_self _ _) rfl (by decide)
    (by simp [updOffset])

end MenaceAP
